import Mathlib

/-!
Verification development for the artisanmarket-api escrow settlement engine.
Monetary amounts are modelled as exact rationals, identifiers as strings and
timestamps as rational milliseconds.  The persisted vendor-balance collection
is modelled as a partial map from a vendor id to its balance document.
-/

namespace ArtisanMarket

/-- Monetary amounts (JS numbers in the source) modelled as exact rationals. -/
abbrev Money := ℚ

/-- Timestamps (JS `Date` values) modelled as rational milliseconds. -/
abbrev Time := ℚ

/-- A line item of an order (`orderItemSchema` in the Order model). -/
structure OrderItem where
  product : String
  quantity : ℕ
  price : Money
  vendor : String
deriving DecidableEq

/-- `escrowStatus` enum of the Order schema. -/
inductive EscrowStatus where
  | held | released | refunded
deriving DecidableEq

/-- `status` enum of the Order schema. -/
inductive OrderStatus where
  | pending | processing | shipped | delivered | cancelled
deriving DecidableEq

/-- `paymentStatus` enum of the Order schema. -/
inductive PaymentStatus where
  | pending | completed | failed | refunded
deriving DecidableEq

/-- The order document fields relevant to escrow settlement. -/
structure Order where
  items : List OrderItem
  status : OrderStatus
  escrowStatus : EscrowStatus
  escrowAmount : Money
  escrowReleaseDate : Option Time
  subtotal : Money
  shippingCost : Money
  tax : Money
  total : Money
  paymentStatus : PaymentStatus
deriving DecidableEq

/-- A `VendorBalance` document (model in part_001 of the source). -/
structure VendorBalance where
  bankAccount : Option String
  totalEarnings : Money
  availableBalance : Money
  pendingBalance : Money
  totalPayouts : Money
  lastPayout : Option Time
  lastPayoutAmount : Money
  minimumPayoutAmount : Money
deriving DecidableEq

/-- The persisted vendor-balance collection: vendor id to balance document. -/
def Balances : Type := String → Option VendorBalance

/-- One step of the JS `vendorAmounts` accumulation: add `x` to the entry of
key `v` of the association list, inserting `(v, x)` at the end when absent
(`Object` insertion order). -/
def addAmount : List (String × Money) → String → Money → List (String × Money)
  | [], v, x => [(v, x)]
  | (k, a) :: rest, v, x =>
      if k = v then (k, a + x) :: rest else (k, a) :: addAmount rest v x

/-- One item of the `forEach` grouping loop of the Order escrow methods. -/
def amtStep (l : List (String × Money)) (it : OrderItem) : List (String × Money) :=
  addAmount l it.vendor (it.price * (it.quantity : Money))

/-- The `vendorAmounts` object built by `releaseEscrow` and
`addToVendorPending`: items grouped by vendor, each entry accumulating
`price * quantity`, in first-occurrence order. -/
def vendorAmounts (items : List OrderItem) : List (String × Money) :=
  items.foldl amtStep []

/-- Lookup of the amount of a vendor key in the grouping list. -/
def lookupAmt (v : String) : List (String × Money) → Option Money
  | [] => none
  | (k, a) :: rest => if k = v then some a else lookupAmt v rest

/-- The keys of a grouping list. -/
def keysOf (l : List (String × Money)) : List String := l.map Prod.fst

/-- The share of vendor `v` in a list of items: the sum of
`price * quantity` over the items of that vendor. -/
def vendorShare (v : String) : List OrderItem → Money
  | [] => 0
  | it :: rest =>
      (if it.vendor = v then it.price * (it.quantity : Money) else 0) + vendorShare v rest

/-- The sum of `price * quantity` over all items of the order. -/
def itemsSubtotal : List OrderItem → Money
  | [] => 0
  | it :: rest => it.price * (it.quantity : Money) + itemsSubtotal rest

/-- Sum of the per-vendor amounts of the `vendorAmounts` grouping. -/
def sharesSum (items : List OrderItem) : Money :=
  ((vendorAmounts items).map Prod.snd).sum

/-- The per-vendor balance update performed inside the loop of
`releaseEscrow`: move the share from pending to available and credit
total earnings. -/
def releaseUpdate (amount : Money) (b : VendorBalance) : VendorBalance :=
  { b with
    pendingBalance := max 0 (b.pendingBalance - amount)
    availableBalance := b.availableBalance + amount
    totalEarnings := b.totalEarnings + amount }

/-- The per-vendor balance update performed inside the loop of
`addToVendorPending`: credit the share to the pending balance. -/
def pendingUpdate (amount : Money) (b : VendorBalance) : VendorBalance :=
  { b with pendingBalance := b.pendingBalance + amount }

/-- The per-vendor fan-out loop shared by `releaseEscrow` and
`addToVendorPending`: for each `(vendorId, amount)` entry, load the balance
document and, only when one exists, apply the given update; a vendor without
a balance document is silently skipped. -/
def applyVendorAmounts (upd : Money → VendorBalance → VendorBalance) :
    List (String × Money) → Balances → Balances
  | [], bal => bal
  | (v, a) :: rest, bal =>
      applyVendorAmounts upd rest
        (fun w => if w = v then (bal w).map (upd a) else bal w)

/-- `orderSchema.methods.releaseEscrow`: throws unless the escrow is held;
otherwise marks the escrow released with release date `now` and moves each
vendor share from pending to available balance. -/
def releaseEscrow (now : Time) (o : Order) (bal : Balances) :
    Except String (Order × Balances) :=
  if o.escrowStatus ≠ .held then .error "Escrow funds are not held"
  else
    let o2 := { o with escrowStatus := .released, escrowReleaseDate := some now }
    .ok (o2, applyVendorAmounts releaseUpdate (vendorAmounts o.items) bal)

/-- `orderSchema.methods.addToVendorPending`: only processes held escrow;
credits each vendor share to that vendor pending balance. -/
def addToVendorPending (o : Order) (bal : Balances) : Balances :=
  if o.escrowStatus ≠ .held then bal
  else applyVendorAmounts pendingUpdate (vendorAmounts o.items) bal

/-- The second `orderSchema.pre` save hook: on a new order with a falsy
`escrowAmount`, set the escrow amount to the order total. -/
def preSaveEscrow (isNew : Bool) (o : Order) : Order :=
  if isNew ∧ o.escrowAmount = 0 then { o with escrowAmount := o.total } else o

/-- The `orderSchema.post` save hook: on a new order whose escrow is held and
whose payment is completed, run `addToVendorPending`. -/
def postSaveHook (isNew : Bool) (o : Order) (bal : Balances) : Balances :=
  if isNew ∧ o.escrowStatus = .held ∧ o.paymentStatus = .completed
  then addToVendorPending o bal else bal

/-- Persisting an order: the pre save hooks followed by the post save hook. -/
def saveOrder (isNew : Bool) (o : Order) (bal : Balances) : Order × Balances :=
  let o2 := preSaveEscrow isNew o
  (o2, postSaveHook isNew o2 bal)

/-- The order document built by the order-creation route (part_003 of the
source): status pending, escrow held, client-supplied totals, and
`paymentStatus = req.body.paymentStatus || pending`. -/
def createOrder (items : List OrderItem) (subtotal shippingCost tax total : Money)
    (paymentStatus : PaymentStatus) : Order :=
  { items := items
    status := .pending
    escrowStatus := .held
    escrowAmount := 0
    escrowReleaseDate := none
    subtotal := subtotal
    shippingCost := shippingCost
    tax := tax
    total := total
    paymentStatus := paymentStatus }

/-- Creating and persisting a new order: `createOrder` followed by
`saveOrder` with `isNew` true. -/
def createAndSaveOrder (items : List OrderItem) (subtotal shippingCost tax total : Money)
    (paymentStatus : PaymentStatus) (bal : Balances) : Order × Balances :=
  saveOrder true (createOrder items subtotal shippingCost tax total paymentStatus) bal

/-- Outcome of the admin force-release route. -/
inductive ReleaseRouteResult where
  | notHeld
  | released
deriving DecidableEq

/-- The admin `POST /orders/:orderId/release-escrow` route: rejects when the
escrow is not held, otherwise calls `releaseEscrow`; on a rejection the order
and the balances are left untouched. -/
def adminReleaseEscrowRoute (now : Time) (o : Order) (bal : Balances) :
    ReleaseRouteResult × Order × Balances :=
  if o.escrowStatus ≠ .held then (.notHeld, o, bal)
  else
    match releaseEscrow now o bal with
    | .ok (o2, bal2) => (.released, o2, bal2)
    | .error _ => (.notHeld, o, bal)

/-- A `BankAccount` document, reduced to the field the payout route reads. -/
structure BankAccount where
  isActive : Bool
deriving DecidableEq

/-- `vendorBalanceSchema.methods.processPayout`: throws on insufficient
available balance, otherwise debits the available balance, credits total
payouts and records the payout. -/
def processPayout (now : Time) (amount : Money) (b : VendorBalance) :
    Except String VendorBalance :=
  if amount > b.availableBalance then .error "Insufficient balance for payout"
  else
    .ok { b with
          availableBalance := b.availableBalance - amount
          totalPayouts := b.totalPayouts + amount
          lastPayout := some now
          lastPayoutAmount := amount }

/-- Outcome of the `POST /payout` route, in the order the route checks. -/
inductive PayoutOutcome where
  | validationFailed
  | notVendor
  | vendorNotFound
  | balanceNotFound
  | noBankConnected
  | bankInactive
  | belowMinimum
  | insufficientAvailable
  | payoutFailed (msg : String)
  | ok
deriving DecidableEq

/-- The `POST /payout` route of userRoutes: the express-validator floor of
10.00 on the amount, the role check, the vendor and balance lookups, the
bank-account checks, the minimum and available-balance checks, then
`processPayout`.  Returns the outcome and the balance document afterwards. -/
def payoutRoute (now : Time) (role : String) (vendorExists : Bool)
    (balance? : Option VendorBalance) (banks : String → Option BankAccount)
    (amount : Money) : PayoutOutcome × Option VendorBalance :=
  if amount < 10 then (.validationFailed, balance?)
  else if role ≠ "vendor" then (.notVendor, balance?)
  else if ¬ vendorExists then (.vendorNotFound, balance?)
  else
    match balance? with
    | none => (.balanceNotFound, none)
    | some b =>
      match b.bankAccount with
      | none => (.noBankConnected, some b)
      | some baId =>
        match banks baId with
        | none => (.bankInactive, some b)
        | some ba =>
          if ¬ ba.isActive then (.bankInactive, some b)
          else if amount < b.minimumPayoutAmount then (.belowMinimum, some b)
          else if amount > b.availableBalance then (.insufficientAvailable, some b)
          else
            match processPayout now amount b with
            | .error e => (.payoutFailed e, some b)
            | .ok b2 => (.ok, some b2)

/-- `verificationStatus` enum of the DeliveryProof schema. -/
inductive VerificationStatus where
  | pending | approved | rejected | requiresReview
deriving DecidableEq

/-- A `DeliveryProof` document (arrivalProofSchema). -/
structure DeliveryProof where
  order : String
  vendor : String
  imageUrl : String
  imageId : String
  uploadedAt : Time
  verificationStatus : VerificationStatus
  adminNotes : Option String
  reviewedBy : Option String
  reviewedAt : Option Time
  canReupload : Bool
  reuploadExpiresAt : Time
deriving DecidableEq

/-- The `arrivalProofSchema.pre` save hook: whenever `uploadedAt` was
modified, reset `reuploadExpiresAt` to `uploadedAt` plus 15 minutes. -/
def proofPreSave (uploadedAtModified : Bool) (p : DeliveryProof) : DeliveryProof :=
  if uploadedAtModified then { p with reuploadExpiresAt := p.uploadedAt + 15 * 60 * 1000 }
  else p

/-- A freshly created delivery proof as persisted by the upload branch of the
vendor route: pending verification, uploaded now, reupload allowed, expiry
set by the schema default and the pre save hook to now plus 15 minutes. -/
def newDeliveryProof (now : Time) (orderId vendorId imageUrl imageId : String) :
    DeliveryProof :=
  proofPreSave true
    { order := orderId
      vendor := vendorId
      imageUrl := imageUrl
      imageId := imageId
      uploadedAt := now
      verificationStatus := .pending
      adminNotes := none
      reviewedBy := none
      reviewedAt := none
      canReupload := true
      reuploadExpiresAt := now + 15 * 60 * 1000 }

/-- The reupload branch of `POST /orders/:orderId/delivery-proof` for an
existing proof: computes the minutes elapsed since `uploadedAt` and rejects
when more than 15; otherwise overwrites the image fields, stamps
`uploadedAt` to now and saves (the pre save hook resetting the expiry). -/
def reuploadProof (now : Time) (imageUrl imageId : String) (p : DeliveryProof) :
    Except String DeliveryProof :=
  if (now - p.uploadedAt) / (1000 * 60) > 15 then
    .error "Re-upload window has expired. You can only re-upload within 15 minutes of the original upload."
  else
    .ok (proofPreSave true { p with imageUrl := imageUrl, imageId := imageId, uploadedAt := now })

/-- `arrivalProofSchema.methods.approve`: approved status, reviewer and time
recorded, reuploads disabled; notes recorded only when nonempty. -/
def approveProof (now : Time) (adminId : String) (notes : String) (p : DeliveryProof) :
    DeliveryProof :=
  proofPreSave false
    { p with
      verificationStatus := .approved
      reviewedBy := some adminId
      reviewedAt := some now
      canReupload := false
      adminNotes := if notes ≠ "" then some notes else p.adminNotes }

/-- `arrivalProofSchema.methods.reject`: rejected status, reviewer and time
recorded, notes overwritten, reupload capability kept. -/
def rejectProof (now : Time) (adminId : String) (notes : String) (p : DeliveryProof) :
    DeliveryProof :=
  proofPreSave false
    { p with
      verificationStatus := .rejected
      reviewedBy := some adminId
      reviewedAt := some now
      adminNotes := some notes }

/-- `arrivalProofSchema.methods.requiresReview`: requires-review status,
reviewer and time recorded, notes overwritten. -/
def requiresReviewProof (now : Time) (adminId : String) (notes : String)
    (p : DeliveryProof) : DeliveryProof :=
  proofPreSave false
    { p with
      verificationStatus := .requiresReview
      reviewedBy := some adminId
      reviewedAt := some now
      adminNotes := some notes }

/-- The admin review actions accepted by the review route. -/
inductive ReviewAction where
  | approve | reject | requiresReview
deriving DecidableEq

/-- The `PATCH /arrival-proofs/:proofId/review` route: dispatches on the
action; on approval an order in processing status moves to shipped, on
rejection an order in processing status reverts to pending. -/
def adminReviewRoute (now : Time) (adminId notes : String) (action : ReviewAction)
    (p : DeliveryProof) (o : Order) : DeliveryProof × Order :=
  match action with
  | .approve =>
      (approveProof now adminId notes p,
       if o.status = .processing then { o with status := .shipped } else o)
  | .reject =>
      (rejectProof now adminId notes p,
       if o.status = .processing then { o with status := .pending } else o)
  | .requiresReview => (requiresReviewProof now adminId notes p, o)

/-- The whitespace class of the JS regex used by `validateCardNumber`. -/
def jsWhitespace (c : Char) : Bool :=
  c = ' ' ∨ c = '\t' ∨ c = '\n' ∨ c = '\r' ∨ c.val = 11 ∨ c.val = 12 ∨
    c.val = 0xa0 ∨ c.val = 0x2028 ∨ c.val = 0x2029 ∨ c.val = 0xfeff

/-- The normalisation step of `validateCardNumber`: drop every whitespace
character and every dash. -/
def cleanCardChars (s : String) : List Char :=
  s.data.filter (fun c => ¬ (jsWhitespace c ∨ c = '-'))

/-- The digit value of a decimal digit character. -/
def charDigit (c : Char) : ℕ := c.toNat - 48

/-- The Luhn accumulation of `validateCardNumber`, over the digits in
right-to-left order; the flag says whether the current digit is doubled. -/
def luhnSumAux : Bool → List ℕ → ℕ
  | _, [] => 0
  | isEven, d :: rest =>
      (if isEven then (if 2 * d > 9 then 2 * d - 9 else 2 * d) else d) +
        luhnSumAux (! isEven) rest

/-- The Luhn check of `validateCardNumber` on a normalised card number. -/
def luhnOk (clean : List Char) : Bool :=
  luhnSumAux false (clean.reverse.map charDigit) % 10 = 0

/-- The `^\d{13,19}$` test of `validateCardNumber`. -/
def cardShapeOk (clean : List Char) : Bool :=
  clean.all Char.isDigit ∧ 13 ≤ clean.length ∧ clean.length ≤ 19

/-- The fixed allow-list of test card numbers in `validateCardNumber`. -/
def testCardNumbers : List String :=
  ["4111111111111111", "4242424242424242", "4000056655665556",
   "5555555555554444", "2223003122003222", "5200828282828210",
   "5105105105105100", "378282246310005", "371449635398431",
   "6011111111111117", "6011000990139424", "3056930009020004",
   "3566002020360505", "6200000000000005"]

/-- `validateCardNumber` of the encryption utility, with the NODE_ENV value
passed explicitly: falsy guard, normalisation, shape test, the development
allow-list bypass, then the Luhn checksum. -/
def validateCardNumber (env : String) (cardNumber : String) : Bool :=
  if cardNumber = "" then false
  else
    let clean := cleanCardChars cardNumber
    if ¬ cardShapeOk clean then false
    else if env = "development" ∧ testCardNumbers.contains (String.mk clean) then true
    else luhnOk clean


/-! ### Concrete documents used to instantiate the theorems -/

/-- A line item of vendor vA: price 10, quantity 2, share 20. -/
def exItemA : OrderItem :=
  { product := "p1", quantity := 2, price := 10, vendor := "vA" }

/-- A line item of vendor vB: price 40, quantity 1, share 40. -/
def exItemB : OrderItem :=
  { product := "p2", quantity := 1, price := 40, vendor := "vB" }

/-- A vendor balance with all amounts zero and a connected bank account. -/
def exVBzero : VendorBalance :=
  { bankAccount := some "ba1", totalEarnings := 0, availableBalance := 0,
    pendingBalance := 0, totalPayouts := 0, lastPayout := none,
    lastPayoutAmount := 0, minimumPayoutAmount := 10 }

/-- A vendor balance holding 20 in pending. -/
def exVBpend : VendorBalance := { exVBzero with pendingBalance := 20 }

/-- A held order of one vA line item, total 20, payment completed. -/
def exHeldOrder : Order :=
  { items := [exItemA], status := .pending, escrowStatus := .held,
    escrowAmount := 20, escrowReleaseDate := none, subtotal := 20,
    shippingCost := 0, tax := 0, total := 20, paymentStatus := .completed }

/-- The held example order already released. -/
def exReleasedOrder : Order := { exHeldOrder with escrowStatus := .released }

/-- A balance collection holding only vA, with 20 pending. -/
def exBalPend : Balances := fun w => if w = "vA" then some exVBpend else none

/-- A balance collection holding only vA, with the zero balance. -/
def exBalZero : Balances := fun w => if w = "vA" then some exVBzero else none

/-- A vendor balance with 100 available and a lowered minimum payout of 5. -/
def exVBmin5 : VendorBalance :=
  { exVBzero with availableBalance := 100, minimumPayoutAmount := 5 }

/-- A vendor balance with exactly 10 available. -/
def exVBten : VendorBalance := { exVBzero with availableBalance := 10 }

/-- A bank-account collection holding one active account ba1. -/
def exBanks : String → Option BankAccount :=
  fun i => if i = "ba1" then some { isActive := true } else none

/-- A pending delivery proof uploaded at time 0. -/
def exProof : DeliveryProof :=
  { order := "o1", vendor := "v1", imageUrl := "u1", imageId := "i1",
    uploadedAt := 0, verificationStatus := .pending, adminNotes := none,
    reviewedBy := none, reviewedAt := none, canReupload := true,
    reuploadExpiresAt := 900000 }

/-- The example proof with reuploads disabled. -/
def exProofNoReup : DeliveryProof := { exProof with canReupload := false }

/-- The held example order in processing status. -/
def exProcessingOrder : Order := { exHeldOrder with status := .processing }

/-- A held order containing items of both vA and vB. -/
def exHeldOrderAB : Order :=
  { exHeldOrder with
    items := [exItemA, exItemB]
    escrowAmount := 60
    subtotal := 60
    total := 60 }


/-! ### Sensitive Data Vault: byte-level primitives.
The repository encrypt/decrypt functions call the Node crypto, buffer and
string primitives; these are modelled here byte for byte: hex encoding,
UTF-8 encoding and decoding (with the replacement character on malformed
input, as Buffer.toString produces), PKCS7 padding as applied by OpenSSL,
and AES-256 in CBC mode.  Bytes are natural numbers below 256. -/

/-- The lowercase hex character of a value below 16, the digits 0 to 9
followed by the letters a to f, as Buffer.toString with hex produces. -/
def hexChar (n : ℕ) : Char := Char.ofNat (if n < 10 then 48 + n else 87 + n)

/-- The value of a hex digit character. -/
def hexDigitVal (c : Char) : ℕ :=
  if '0' ≤ c ∧ c ≤ '9' then c.toNat - 48
  else if 'a' ≤ c ∧ c ≤ 'f' then c.toNat - 87
  else if 'A' ≤ c ∧ c ≤ 'F' then c.toNat - 55
  else 0

/-- Bytes to lowercase hex characters, two per byte. -/
def bytesToHex : List ℕ → List Char
  | [] => []
  | b :: rest => hexChar (b / 16) :: hexChar (b % 16) :: bytesToHex rest

/-- Hex characters back to bytes, two characters per byte; a trailing odd
character is dropped, as Buffer.from with hex does. -/
def hexToBytes : List Char → List ℕ
  | c1 :: c2 :: rest => (hexDigitVal c1 * 16 + hexDigitVal c2) :: hexToBytes rest
  | _ => []

/-- UTF-8 encoding of one scalar value, 1 to 4 bytes. -/
def utf8EncodeChar (c : Char) : List ℕ :=
  if c.toNat < 0x80 then [c.toNat]
  else if c.toNat < 0x800 then [0xC0 + c.toNat / 64, 0x80 + c.toNat % 64]
  else if c.toNat < 0x10000 then
    [0xE0 + c.toNat / 4096, 0x80 + c.toNat / 64 % 64, 0x80 + c.toNat % 64]
  else
    [0xF0 + c.toNat / 262144, 0x80 + c.toNat / 4096 % 64, 0x80 + c.toNat / 64 % 64,
     0x80 + c.toNat % 64]

/-- UTF-8 encoding of a character sequence. -/
def utf8Encode : List Char → List ℕ
  | [] => []
  | c :: cs => utf8EncodeChar c ++ utf8Encode cs

/-- The replacement character emitted for malformed input. -/
def replChar : Char := Char.ofNat 0xFFFD

/-- UTF-8 decoding with the replacement character on malformed sequences,
following the WHATWG ranges that Buffer.toString implements; the fuel
argument, one unit per decoded character, only serves termination and is
always sufficient when at least the byte count. -/
def utf8DecodeAux : ℕ → List ℕ → List Char
  | 0, _ => []
  | _, [] => []
  | fuel + 1, b1 :: rest =>
    if b1 < 0x80 then Char.ofNat b1 :: utf8DecodeAux fuel rest
    else if b1 < 0xC2 then replChar :: utf8DecodeAux fuel rest
    else if b1 < 0xE0 then
      match rest with
      | b2 :: rest2 =>
        if 0x80 ≤ b2 ∧ b2 < 0xC0 then
          Char.ofNat ((b1 - 0xC0) * 64 + (b2 - 0x80)) :: utf8DecodeAux fuel rest2
        else replChar :: utf8DecodeAux fuel rest
      | [] => [replChar]
    else if b1 < 0xF0 then
      match rest with
      | b2 :: b3 :: rest3 =>
        if (0x80 ≤ b2 ∧ b2 < 0xC0) ∧ (0x80 ≤ b3 ∧ b3 < 0xC0) ∧
            (0xE1 ≤ b1 ∨ 0xA0 ≤ b2) ∧ (b1 ≠ 0xED ∨ b2 < 0xA0) then
          Char.ofNat ((b1 - 0xE0) * 4096 + (b2 - 0x80) * 64 + (b3 - 0x80))
            :: utf8DecodeAux fuel rest3
        else replChar :: utf8DecodeAux fuel rest
      | _ => replChar :: utf8DecodeAux fuel rest
    else if b1 < 0xF5 then
      match rest with
      | b2 :: b3 :: b4 :: rest4 =>
        if (0x80 ≤ b2 ∧ b2 < 0xC0) ∧ (0x80 ≤ b3 ∧ b3 < 0xC0) ∧ (0x80 ≤ b4 ∧ b4 < 0xC0) ∧
            (0xF1 ≤ b1 ∨ 0x90 ≤ b2) ∧ (b1 ≠ 0xF4 ∨ b2 < 0x90) then
          Char.ofNat ((b1 - 0xF0) * 262144 + (b2 - 0x80) * 4096 + (b3 - 0x80) * 64 + (b4 - 0x80))
            :: utf8DecodeAux fuel rest4
        else replChar :: utf8DecodeAux fuel rest
      | _ => replChar :: utf8DecodeAux fuel rest
    else replChar :: utf8DecodeAux fuel rest

/-- UTF-8 decoding of a byte list. -/
def utf8Decode (bs : List ℕ) : List Char := utf8DecodeAux bs.length bs

/-- The split of a character list at every colon, as String.prototype.split
with a colon produces (all parts, in order). -/
def splitColon : List Char → List (List Char)
  | [] => [[]]
  | c :: rest =>
    let ps := splitColon rest
    if c = ':' then [] :: ps
    else
      match ps with
      | p :: tail => (c :: p) :: tail
      | [] => [[c]]

/-- PKCS7 padding to a multiple of 16 bytes, as the cipher applies. -/
def pkcs7pad (bs : List ℕ) : List ℕ :=
  bs ++ List.replicate (16 - bs.length % 16) (16 - bs.length % 16)

/-- PKCS7 unpadding with the full check OpenSSL performs: the last byte k
must lie in 1..16 and the last k bytes must all equal k, else failure. -/
def pkcs7unpad (bs : List ℕ) : Option (List ℕ) :=
  match bs.getLast? with
  | none => none
  | some k =>
    if 1 ≤ k ∧ k ≤ 16 ∧ k ≤ bs.length ∧ (bs.drop (bs.length - k)).all (fun x => x = k) then
      some (bs.take (bs.length - k))
    else none

/-- Split a byte list into blocks of 16; a short final fragment is kept as
its own block. -/
def toBlocks : List ℕ → List (List ℕ)
  | a1 :: a2 :: a3 :: a4 :: a5 :: a6 :: a7 :: a8 ::
    a9 :: a10 :: a11 :: a12 :: a13 :: a14 :: a15 :: a16 :: rest =>
      [a1, a2, a3, a4, a5, a6, a7, a8, a9, a10, a11, a12, a13, a14, a15, a16] :: toBlocks rest
  | [] => []
  | l => [l]

/-- Concatenation of blocks back into a byte list. -/
def concatBlocks : List (List ℕ) → List ℕ
  | [] => []
  | b :: rest => b ++ concatBlocks rest

/-- Pointwise XOR of two byte lists. -/
def xorBytes (a b : List ℕ) : List ℕ := List.zipWith (fun x y => x ^^^ y) a b

/-- The AES S-box. -/
def sbox : List Nat :=
  [0x63, 0x7c, 0x77, 0x7b, 0xf2, 0x6b, 0x6f, 0xc5, 0x30, 0x01, 0x67, 0x2b,
   0xfe, 0xd7, 0xab, 0x76, 0xca, 0x82, 0xc9, 0x7d, 0xfa, 0x59, 0x47, 0xf0,
   0xad, 0xd4, 0xa2, 0xaf, 0x9c, 0xa4, 0x72, 0xc0, 0xb7, 0xfd, 0x93, 0x26,
   0x36, 0x3f, 0xf7, 0xcc, 0x34, 0xa5, 0xe5, 0xf1, 0x71, 0xd8, 0x31, 0x15,
   0x04, 0xc7, 0x23, 0xc3, 0x18, 0x96, 0x05, 0x9a, 0x07, 0x12, 0x80, 0xe2,
   0xeb, 0x27, 0xb2, 0x75, 0x09, 0x83, 0x2c, 0x1a, 0x1b, 0x6e, 0x5a, 0xa0,
   0x52, 0x3b, 0xd6, 0xb3, 0x29, 0xe3, 0x2f, 0x84, 0x53, 0xd1, 0x00, 0xed,
   0x20, 0xfc, 0xb1, 0x5b, 0x6a, 0xcb, 0xbe, 0x39, 0x4a, 0x4c, 0x58, 0xcf,
   0xd0, 0xef, 0xaa, 0xfb, 0x43, 0x4d, 0x33, 0x85, 0x45, 0xf9, 0x02, 0x7f,
   0x50, 0x3c, 0x9f, 0xa8, 0x51, 0xa3, 0x40, 0x8f, 0x92, 0x9d, 0x38, 0xf5,
   0xbc, 0xb6, 0xda, 0x21, 0x10, 0xff, 0xf3, 0xd2, 0xcd, 0x0c, 0x13, 0xec,
   0x5f, 0x97, 0x44, 0x17, 0xc4, 0xa7, 0x7e, 0x3d, 0x64, 0x5d, 0x19, 0x73,
   0x60, 0x81, 0x4f, 0xdc, 0x22, 0x2a, 0x90, 0x88, 0x46, 0xee, 0xb8, 0x14,
   0xde, 0x5e, 0x0b, 0xdb, 0xe0, 0x32, 0x3a, 0x0a, 0x49, 0x06, 0x24, 0x5c,
   0xc2, 0xd3, 0xac, 0x62, 0x91, 0x95, 0xe4, 0x79, 0xe7, 0xc8, 0x37, 0x6d,
   0x8d, 0xd5, 0x4e, 0xa9, 0x6c, 0x56, 0xf4, 0xea, 0x65, 0x7a, 0xae, 0x08,
   0xba, 0x78, 0x25, 0x2e, 0x1c, 0xa6, 0xb4, 0xc6, 0xe8, 0xdd, 0x74, 0x1f,
   0x4b, 0xbd, 0x8b, 0x8a, 0x70, 0x3e, 0xb5, 0x66, 0x48, 0x03, 0xf6, 0x0e,
   0x61, 0x35, 0x57, 0xb9, 0x86, 0xc1, 0x1d, 0x9e, 0xe1, 0xf8, 0x98, 0x11,
   0x69, 0xd9, 0x8e, 0x94, 0x9b, 0x1e, 0x87, 0xe9, 0xce, 0x55, 0x28, 0xdf,
   0x8c, 0xa1, 0x89, 0x0d, 0xbf, 0xe6, 0x42, 0x68, 0x41, 0x99, 0x2d, 0x0f,
   0xb0, 0x54, 0xbb, 0x16]

/-- The inverse AES S-box. -/
def invSbox : List Nat :=
  [0x52, 0x09, 0x6a, 0xd5, 0x30, 0x36, 0xa5, 0x38, 0xbf, 0x40, 0xa3, 0x9e,
   0x81, 0xf3, 0xd7, 0xfb, 0x7c, 0xe3, 0x39, 0x82, 0x9b, 0x2f, 0xff, 0x87,
   0x34, 0x8e, 0x43, 0x44, 0xc4, 0xde, 0xe9, 0xcb, 0x54, 0x7b, 0x94, 0x32,
   0xa6, 0xc2, 0x23, 0x3d, 0xee, 0x4c, 0x95, 0x0b, 0x42, 0xfa, 0xc3, 0x4e,
   0x08, 0x2e, 0xa1, 0x66, 0x28, 0xd9, 0x24, 0xb2, 0x76, 0x5b, 0xa2, 0x49,
   0x6d, 0x8b, 0xd1, 0x25, 0x72, 0xf8, 0xf6, 0x64, 0x86, 0x68, 0x98, 0x16,
   0xd4, 0xa4, 0x5c, 0xcc, 0x5d, 0x65, 0xb6, 0x92, 0x6c, 0x70, 0x48, 0x50,
   0xfd, 0xed, 0xb9, 0xda, 0x5e, 0x15, 0x46, 0x57, 0xa7, 0x8d, 0x9d, 0x84,
   0x90, 0xd8, 0xab, 0x00, 0x8c, 0xbc, 0xd3, 0x0a, 0xf7, 0xe4, 0x58, 0x05,
   0xb8, 0xb3, 0x45, 0x06, 0xd0, 0x2c, 0x1e, 0x8f, 0xca, 0x3f, 0x0f, 0x02,
   0xc1, 0xaf, 0xbd, 0x03, 0x01, 0x13, 0x8a, 0x6b, 0x3a, 0x91, 0x11, 0x41,
   0x4f, 0x67, 0xdc, 0xea, 0x97, 0xf2, 0xcf, 0xce, 0xf0, 0xb4, 0xe6, 0x73,
   0x96, 0xac, 0x74, 0x22, 0xe7, 0xad, 0x35, 0x85, 0xe2, 0xf9, 0x37, 0xe8,
   0x1c, 0x75, 0xdf, 0x6e, 0x47, 0xf1, 0x1a, 0x71, 0x1d, 0x29, 0xc5, 0x89,
   0x6f, 0xb7, 0x62, 0x0e, 0xaa, 0x18, 0xbe, 0x1b, 0xfc, 0x56, 0x3e, 0x4b,
   0xc6, 0xd2, 0x79, 0x20, 0x9a, 0xdb, 0xc0, 0xfe, 0x78, 0xcd, 0x5a, 0xf4,
   0x1f, 0xdd, 0xa8, 0x33, 0x88, 0x07, 0xc7, 0x31, 0xb1, 0x12, 0x10, 0x59,
   0x27, 0x80, 0xec, 0x5f, 0x60, 0x51, 0x7f, 0xa9, 0x19, 0xb5, 0x4a, 0x0d,
   0x2d, 0xe5, 0x7a, 0x9f, 0x93, 0xc9, 0x9c, 0xef, 0xa0, 0xe0, 0x3b, 0x4d,
   0xae, 0x2a, 0xf5, 0xb0, 0xc8, 0xeb, 0xbb, 0x3c, 0x83, 0x53, 0x99, 0x61,
   0x17, 0x2b, 0x04, 0x7e, 0xba, 0x77, 0xd6, 0x26, 0xe1, 0x69, 0x14, 0x63,
   0x55, 0x21, 0x0c, 0x7d]

/-- S-box lookup of a byte. -/
def sboxAt (n : ℕ) : ℕ := sbox.getD n 0

/-- Inverse S-box lookup of a byte. -/
def invSboxAt (n : ℕ) : ℕ := invSbox.getD n 0

/-- Multiplication by x in GF(256) modulo the AES polynomial 0x11B. -/
def xtime (a : ℕ) : ℕ := if a * 2 < 256 then a * 2 else a * 2 ^^^ 0x11B

/-- GF(256) multiplication by 2. -/
def mul2 (x : ℕ) : ℕ := xtime x

/-- GF(256) multiplication by 3. -/
def mul3 (x : ℕ) : ℕ := xtime x ^^^ x

/-- GF(256) multiplication by 9. -/
def mul9 (x : ℕ) : ℕ := xtime (xtime (xtime x)) ^^^ x

/-- GF(256) multiplication by 11. -/
def mul11 (x : ℕ) : ℕ := xtime (xtime (xtime x)) ^^^ xtime x ^^^ x

/-- GF(256) multiplication by 13. -/
def mul13 (x : ℕ) : ℕ := xtime (xtime (xtime x)) ^^^ xtime (xtime x) ^^^ x

/-- GF(256) multiplication by 14. -/
def mul14 (x : ℕ) : ℕ := xtime (xtime (xtime x)) ^^^ xtime (xtime x) ^^^ xtime x

/-- SubBytes on a 16-byte column-major state. -/
def subBytes (s : List ℕ) : List ℕ := s.map sboxAt

/-- InvSubBytes on a state. -/
def invSubBytes (s : List ℕ) : List ℕ := s.map invSboxAt

/-- The index permutation of ShiftRows on the column-major state. -/
def shiftRowsIdx : List ℕ := [0, 5, 10, 15, 4, 9, 14, 3, 8, 13, 2, 7, 12, 1, 6, 11]

/-- The index permutation of InvShiftRows. -/
def invShiftRowsIdx : List ℕ := [0, 13, 10, 7, 4, 1, 14, 11, 8, 5, 2, 15, 12, 9, 6, 3]

/-- ShiftRows on a state. -/
def shiftRows (s : List ℕ) : List ℕ := shiftRowsIdx.map (fun i => s.getD i 0)

/-- InvShiftRows on a state. -/
def invShiftRows (s : List ℕ) : List ℕ := invShiftRowsIdx.map (fun i => s.getD i 0)

/-- MixColumns on one 4-byte column. -/
def mixCol : List ℕ → List ℕ
  | [a, b, c, d] =>
      [mul2 a ^^^ mul3 b ^^^ c ^^^ d,
       a ^^^ mul2 b ^^^ mul3 c ^^^ d,
       a ^^^ b ^^^ mul2 c ^^^ mul3 d,
       mul3 a ^^^ b ^^^ c ^^^ mul2 d]
  | l => l

/-- InvMixColumns on one 4-byte column. -/
def invMixCol : List ℕ → List ℕ
  | [a, b, c, d] =>
      [mul14 a ^^^ mul11 b ^^^ mul13 c ^^^ mul9 d,
       mul9 a ^^^ mul14 b ^^^ mul11 c ^^^ mul13 d,
       mul13 a ^^^ mul9 b ^^^ mul14 c ^^^ mul11 d,
       mul11 a ^^^ mul13 b ^^^ mul9 c ^^^ mul14 d]
  | l => l

/-- Apply a column transformation to each 4-byte chunk of the state. -/
def mapChunks4 (f : List ℕ → List ℕ) : List ℕ → List ℕ
  | a :: b :: c :: d :: rest => f [a, b, c, d] ++ mapChunks4 f rest
  | l => l

/-- MixColumns on a state. -/
def mixColumns : List ℕ → List ℕ := mapChunks4 mixCol

/-- InvMixColumns on a state. -/
def invMixColumns : List ℕ → List ℕ := mapChunks4 invMixCol

/-- AddRoundKey: XOR the state with a round key. -/
def addRoundKey (s k : List ℕ) : List ℕ := xorBytes s k

/-- The AES rounds after the initial key addition: every key but the last
drives a full round, the last key drives the final round without
MixColumns. -/
def encryptRounds (keys : List (List ℕ)) (s : List ℕ) : List ℕ :=
  match keys with
  | [] => s
  | [k] => addRoundKey (shiftRows (subBytes s)) k
  | k :: rest => encryptRounds rest (addRoundKey (mixColumns (shiftRows (subBytes s))) k)

/-- AES block encryption under an expanded key schedule. -/
def encryptBlock (keys : List (List ℕ)) (b : List ℕ) : List ℕ :=
  match keys with
  | [] => b
  | k0 :: rest => encryptRounds rest (addRoundKey b k0)

/-- The inverse of encryptRounds, unwinding the rounds from the outside. -/
def decryptRounds (keys : List (List ℕ)) (c : List ℕ) : List ℕ :=
  match keys with
  | [] => c
  | [k] => invSubBytes (invShiftRows (addRoundKey c k))
  | k :: rest =>
      invSubBytes (invShiftRows (invMixColumns (addRoundKey (decryptRounds rest c) k)))

/-- AES block decryption under an expanded key schedule. -/
def decryptBlock (keys : List (List ℕ)) (c : List ℕ) : List ℕ :=
  match keys with
  | [] => c
  | k0 :: rest => addRoundKey (decryptRounds rest c) k0

/-- SubWord of the key schedule. -/
def subWord (w : List ℕ) : List ℕ := w.map sboxAt

/-- RotWord of the key schedule. -/
def rotWord : List ℕ → List ℕ
  | [a, b, c, d] => [b, c, d, a]
  | l => l

/-- Pointwise XOR of two 4-byte words. -/
def xorWord (a b : List ℕ) : List ℕ := List.zipWith (fun x y => x ^^^ y) a b

/-- The AES round constants indexed by i / 8 for AES-256. -/
def rconList : List ℕ := [0, 1, 2, 4, 8, 16, 32, 64]

/-- The next word of the AES-256 key schedule given all previous words. -/
def nextWord (w : List (List ℕ)) : List ℕ :=
  let i := w.length
  let temp := w.getD (i - 1) []
  let temp2 :=
    if i % 8 = 0 then xorWord (subWord (rotWord temp)) [rconList.getD (i / 8) 0, 0, 0, 0]
    else if i % 8 = 4 then subWord temp
    else temp
  xorWord (w.getD (i - 8) []) temp2

/-- Iterate the key schedule a given number of times. -/
def expandAux : ℕ → List (List ℕ) → List (List ℕ)
  | 0, w => w
  | n + 1, w => expandAux n (w ++ [nextWord w])

/-- The eight initial words of an AES-256 key. -/
def initWords (key : List ℕ) : List (List ℕ) :=
  [key.take 4, ((key.drop 4).take 4), ((key.drop 8).take 4), ((key.drop 12).take 4),
   ((key.drop 16).take 4), ((key.drop 20).take 4), ((key.drop 24).take 4),
   ((key.drop 28).take 4)]

/-- All sixty words of the AES-256 key schedule. -/
def keyWords (key : List ℕ) : List (List ℕ) := expandAux 52 (initWords key)

/-- Group the schedule words into 16-byte round keys, four words each. -/
def wordsToKeys : List (List ℕ) → List (List ℕ)
  | w0 :: w1 :: w2 :: w3 :: rest => (w0 ++ w1 ++ w2 ++ w3) :: wordsToKeys rest
  | _ => []

/-- The fifteen round keys of AES-256 for a 32-byte key. -/
def roundKeysOf (key : List ℕ) : List (List ℕ) := wordsToKeys (keyWords key)

/-- CBC encryption of a block list, chaining from the previous ciphertext
block, starting at the initialization vector. -/
def cbcEncryptBlocks (keys : List (List ℕ)) (prev : List ℕ) :
    List (List ℕ) → List (List ℕ)
  | [] => []
  | b :: rest =>
    let c := encryptBlock keys (xorBytes prev b)
    c :: cbcEncryptBlocks keys c rest

/-- CBC decryption of a block list. -/
def cbcDecryptBlocks (keys : List (List ℕ)) (prev : List ℕ) :
    List (List ℕ) → List (List ℕ)
  | [] => []
  | c :: rest => xorBytes prev (decryptBlock keys c) :: cbcDecryptBlocks keys c rest

/-- `encrypt` of the encryption utility: null on falsy input, otherwise
UTF-8 encode, pad, AES-256-CBC encrypt under the configured key with the
fresh random IV passed explicitly, and render as ivHex:cipherHex. -/
def encrypt (key iv : List ℕ) (text : String) : Option String :=
  if text = "" then none
  else
    some (String.mk (bytesToHex iv ++ ':' ::
      bytesToHex (concatBlocks (cbcEncryptBlocks (roundKeysOf key) iv
        (toBlocks (pkcs7pad (utf8Encode text.data)))))))

/-- `decrypt` of the encryption utility: null on falsy input; split at the
colon, reject missing parts, malformed IV or ciphertext lengths and bad
padding with the decryption-failed error, otherwise AES-256-CBC decrypt,
unpad and UTF-8 decode. -/
def decrypt (key : List ℕ) (encryptedText : String) : Except String (Option String) :=
  if encryptedText = "" then .ok none
  else
    let parts := splitColon encryptedText.data
    let ivHex := parts.getD 0 []
    let dataHex := parts.getD 1 []
    if ivHex.isEmpty ∨ dataHex.isEmpty then .error "Decryption failed"
    else
      let iv := hexToBytes ivHex
      let ctBytes := hexToBytes dataHex
      if iv.length ≠ 16 ∨ ctBytes.length % 16 ≠ 0 ∨ ctBytes.length = 0 then
        .error "Decryption failed"
      else
        match pkcs7unpad (concatBlocks (cbcDecryptBlocks (roundKeysOf key) iv
            (toBlocks ctBytes))) with
        | none => .error "Decryption failed"
        | some ptBytes => .ok (some (String.mk (utf8Decode ptBytes)))

/-- A 32-byte test key, bytes 0 to 31. -/
def exKey : List ℕ := List.range 32

/-- An all-zero 16-byte initialization vector. -/
def exIV : List ℕ := List.replicate 16 0

/-! ### Lemmas about the vendor grouping and the fan-out loops -/

theorem lookupAmt_addAmount_self (l : List (String × Money)) (v : String) (x : Money) :
    lookupAmt v (addAmount l v x) = some ((lookupAmt v l).getD 0 + x) := by
  induction l with
  | nil => simp [addAmount, lookupAmt]
  | cons hd tl ih =>
    obtain ⟨k, a⟩ := hd
    by_cases hk : k = v
    · rw [addAmount, if_pos hk]
      simp only [lookupAmt, if_pos hk, Option.getD_some]
    · rw [addAmount, if_neg hk]
      simp only [lookupAmt, if_neg hk]
      exact ih

theorem lookupAmt_addAmount_ne (l : List (String × Money)) (v w : String) (x : Money)
    (h : w ≠ v) : lookupAmt w (addAmount l v x) = lookupAmt w l := by
  have hvw : ¬ v = w := fun hh => h hh.symm
  induction l with
  | nil =>
    simp only [addAmount, lookupAmt]
    rw [if_neg hvw]
  | cons hd tl ih =>
    obtain ⟨k, a⟩ := hd
    by_cases hk : k = v
    · have hkw : ¬ k = w := fun hh => hvw (hk ▸ hh)
      rw [addAmount, if_pos hk]
      simp only [lookupAmt, if_neg hkw]
    · rw [addAmount, if_neg hk]
      by_cases hw : k = w
      · simp only [lookupAmt, if_pos hw]
      · simp only [lookupAmt, if_neg hw]
        exact ih

theorem mem_keys_addAmount (l : List (String × Money)) (v w : String) (x : Money) :
    w ∈ keysOf (addAmount l v x) ↔ w ∈ keysOf l ∨ w = v := by
  induction l with
  | nil => simp [addAmount, keysOf, eq_comm]
  | cons hd tl ih =>
    obtain ⟨k, a⟩ := hd
    by_cases hk : k = v
    · rw [addAmount, if_pos hk]
      subst hk
      simp only [keysOf, List.map_cons, List.mem_cons]
      tauto
    · rw [addAmount, if_neg hk]
      simp only [keysOf, List.map_cons, List.mem_cons] at ih ⊢
      rw [show (addAmount tl v x).map Prod.fst = keysOf (addAmount tl v x) from rfl] at *
      rw [show tl.map Prod.fst = keysOf tl from rfl] at *
      tauto

theorem nodup_keys_addAmount (l : List (String × Money)) (v : String) (x : Money)
    (h : (keysOf l).Nodup) : (keysOf (addAmount l v x)).Nodup := by
  induction l with
  | nil => simp [addAmount, keysOf]
  | cons hd tl ih =>
    obtain ⟨k, a⟩ := hd
    simp only [keysOf, List.map_cons, List.nodup_cons] at h
    by_cases hk : k = v
    · rw [addAmount, if_pos hk]
      simp only [keysOf, List.map_cons, List.nodup_cons]
      exact h
    · have htl := ih h.2
      rw [addAmount, if_neg hk]
      simp only [keysOf, List.map_cons, List.nodup_cons]
      refine ⟨fun hmem => ?_, htl⟩
      rcases (mem_keys_addAmount tl v k x).1 hmem with hh | hh
      · exact h.1 hh
      · exact hk hh

theorem lookupAmt_eq_none_iff (l : List (String × Money)) (v : String) :
    lookupAmt v l = none ↔ v ∉ keysOf l := by
  induction l with
  | nil => simp [lookupAmt, keysOf]
  | cons hd tl ih =>
    obtain ⟨k, a⟩ := hd
    by_cases hk : k = v
    · subst hk
      simp [lookupAmt, keysOf]
    · have hvk : ¬ v = k := fun hh => hk hh.symm
      simp only [lookupAmt, if_neg hk, keysOf, List.map_cons, List.mem_cons]
      rw [show tl.map Prod.fst = keysOf tl from rfl]
      rw [ih]
      constructor
      · intro hn hh
        rcases hh with hh | hh
        · exact hvk hh
        · exact hn hh
      · intro hn
        exact fun hh => hn (.inr hh)

theorem lookupAmt_foldl_amtStep (items : List OrderItem) (l : List (String × Money))
    (v : String) :
    lookupAmt v (items.foldl amtStep l) =
      if v ∈ keysOf l ∨ v ∈ items.map OrderItem.vendor then
        some ((lookupAmt v l).getD 0 + vendorShare v items)
      else none := by
  induction items generalizing l with
  | nil =>
    by_cases h : v ∈ keysOf l
    · have hne : lookupAmt v l ≠ none := fun hn => ((lookupAmt_eq_none_iff l v).1 hn) h
      rcases Option.ne_none_iff_exists.1 hne with ⟨a, ha⟩
      simp [h, ← ha, vendorShare]
    · simp [h, (lookupAmt_eq_none_iff l v).2 h, vendorShare]
  | cons it rest ih =>
    simp only [List.foldl_cons]
    rw [ih]
    by_cases hv : it.vendor = v
    · have hmem : v ∈ keysOf (amtStep l it) := by
        rw [amtStep, mem_keys_addAmount]
        exact .inr hv.symm
      have hlk : lookupAmt v (amtStep l it) =
          some ((lookupAmt v l).getD 0 + it.price * (it.quantity : Money)) := by
        rw [amtStep, hv, lookupAmt_addAmount_self]
      have hmem2 : v ∈ (it :: rest).map OrderItem.vendor := by
        simp [hv]
      rw [if_pos (.inl hmem), if_pos (.inr hmem2), hlk]
      simp only [Option.getD_some, vendorShare, if_pos hv]
      ring_nf
    · have hvv : ¬ v = it.vendor := fun hh => hv hh.symm
      have hlk : lookupAmt v (amtStep l it) = lookupAmt v l :=
        lookupAmt_addAmount_ne l it.vendor v _ hvv
      have hmem : v ∈ keysOf (amtStep l it) ↔ v ∈ keysOf l := by
        rw [amtStep, mem_keys_addAmount]
        constructor
        · rintro (hh | hh)
          · exact hh
          · exact absurd hh hvv
        · exact fun hh => .inl hh
      have hshare : vendorShare v (it :: rest) = vendorShare v rest := by
        simp [vendorShare, hv]
      have hmem2 : v ∈ (it :: rest).map OrderItem.vendor ↔ v ∈ rest.map OrderItem.vendor := by
        simp only [List.map_cons, List.mem_cons]
        constructor
        · rintro (hh | hh)
          · exact absurd hh hvv
          · exact hh
        · exact fun hh => .inr hh
      rw [hlk, hshare]
      simp only [hmem, hmem2]

theorem lookupAmt_vendorAmounts (items : List OrderItem) (v : String) :
    lookupAmt v (vendorAmounts items) =
      if v ∈ items.map OrderItem.vendor then some (vendorShare v items) else none := by
  rw [vendorAmounts, lookupAmt_foldl_amtStep]
  simp [keysOf, lookupAmt]

theorem nodup_keys_vendorAmounts (items : List OrderItem) :
    (keysOf (vendorAmounts items)).Nodup := by
  rw [vendorAmounts]
  have main : ∀ (its : List OrderItem) (l : List (String × Money)),
      (keysOf l).Nodup → (keysOf (its.foldl amtStep l)).Nodup := by
    intro its
    induction its with
    | nil => exact fun l h => h
    | cons it rest ih =>
      intro l h
      exact ih _ (nodup_keys_addAmount l it.vendor _ h)
  exact main items [] (by simp [keysOf])

theorem applyVendorAmounts_eval (upd : Money → VendorBalance → VendorBalance)
    (entries : List (String × Money)) (bal : Balances)
    (hnd : (keysOf entries).Nodup) (v : String) :
    applyVendorAmounts upd entries bal v =
      match lookupAmt v entries with
      | some a => (bal v).map (upd a)
      | none => bal v := by
  induction entries generalizing bal with
  | nil => simp [applyVendorAmounts, lookupAmt]
  | cons hd tl ih =>
    obtain ⟨k, a⟩ := hd
    simp only [keysOf, List.map_cons, List.nodup_cons] at hnd
    rw [show tl.map Prod.fst = keysOf tl from rfl] at hnd
    rw [applyVendorAmounts, ih _ hnd.2]
    by_cases hv : k = v
    · subst hv
      have hnone : lookupAmt k tl = none := (lookupAmt_eq_none_iff tl k).2 hnd.1
      simp [lookupAmt, hnone]
    · have hvk : ¬ v = k := fun hh => hv hh.symm
      simp only [lookupAmt, if_neg hv]
      have : (fun w => if w = k then ((bal w).map (upd a)) else bal w) v = bal v := by
        simp [if_neg hvk]
      cases hlk : lookupAmt v tl with
      | none => simpa [hlk] using this
      | some a2 => simp [hlk, this]

theorem fanout_eval (upd : Money → VendorBalance → VendorBalance)
    (items : List OrderItem) (bal : Balances) (v : String) :
    applyVendorAmounts upd (vendorAmounts items) bal v =
      if v ∈ items.map OrderItem.vendor then (bal v).map (upd (vendorShare v items))
      else bal v := by
  rw [applyVendorAmounts_eval upd _ bal (nodup_keys_vendorAmounts items) v,
    lookupAmt_vendorAmounts]
  by_cases h : v ∈ items.map OrderItem.vendor <;> simp [h]

theorem valuesSum_addAmount (l : List (String × Money)) (v : String) (x : Money) :
    ((addAmount l v x).map Prod.snd).sum = (l.map Prod.snd).sum + x := by
  induction l with
  | nil => simp [addAmount]
  | cons hd tl ih =>
    obtain ⟨k, a⟩ := hd
    by_cases hk : k = v
    · rw [addAmount, if_pos hk]
      simp only [List.map_cons, List.sum_cons]
      ring
    · rw [addAmount, if_neg hk]
      simp only [List.map_cons, List.sum_cons, ih]
      ring

theorem sharesSum_eq_itemsSubtotal (items : List OrderItem) :
    sharesSum items = itemsSubtotal items := by
  have main : ∀ (its : List OrderItem) (l : List (String × Money)),
      ((its.foldl amtStep l).map Prod.snd).sum = (l.map Prod.snd).sum + itemsSubtotal its := by
    intro its
    induction its with
    | nil =>
      intro l
      simp [itemsSubtotal]
    | cons it rest ih =>
      intro l
      rw [List.foldl_cons, ih, amtStep, valuesSum_addAmount, itemsSubtotal]
      ring
  have h := main items []
  simpa [sharesSum, vendorAmounts] using h

/-! ### Claim theorems -/

/-- C1: for every order whose escrowStatus is held, releaseEscrow succeeds,
sets escrowStatus to released and escrowReleaseDate to the current time, and
for every vendor represented in the line items whose balance document
exists, with share the sum of price times quantity over the items of that
vendor, sets pendingBalance to max 0 (pendingBalance - share), adds the
share to availableBalance and adds the share to totalEarnings. -/
theorem releaseEscrow_held_credits_each_vendor (now : Time) (o : Order) (bal : Balances)
    (h : o.escrowStatus = .held) :
    ∃ o2 bal2, releaseEscrow now o bal = .ok (o2, bal2) ∧
      o2.escrowStatus = .released ∧ o2.escrowReleaseDate = some now ∧
      ∀ v b, v ∈ o.items.map OrderItem.vendor → bal v = some b →
        bal2 v = some { b with
          pendingBalance := max 0 (b.pendingBalance - vendorShare v o.items)
          availableBalance := b.availableBalance + vendorShare v o.items
          totalEarnings := b.totalEarnings + vendorShare v o.items } := by
  have hng : ¬ o.escrowStatus ≠ EscrowStatus.held := fun hh => hh h
  refine ⟨{ o with escrowStatus := .released, escrowReleaseDate := some now },
    applyVendorAmounts releaseUpdate (vendorAmounts o.items) bal, ?_, rfl, rfl, ?_⟩
  · rw [releaseEscrow, if_neg hng]
  · intro v b hv hb
    rw [fanout_eval, if_pos hv, hb]
    rfl

/-- C1 witness: the held example order with vendor vA holding 20 pending. -/
theorem releaseEscrow_held_credits_each_vendor_witness :
    ∃ o2 bal2, releaseEscrow 1000 exHeldOrder exBalPend = .ok (o2, bal2) ∧
      o2.escrowStatus = .released ∧ o2.escrowReleaseDate = some 1000 ∧
      ∀ v b, v ∈ exHeldOrder.items.map OrderItem.vendor → exBalPend v = some b →
        bal2 v = some { b with
          pendingBalance := max 0 (b.pendingBalance - vendorShare v exHeldOrder.items)
          availableBalance := b.availableBalance + vendorShare v exHeldOrder.items
          totalEarnings := b.totalEarnings + vendorShare v exHeldOrder.items } :=
  releaseEscrow_held_credits_each_vendor 1000 exHeldOrder exBalPend (by decide)

/-- C2 counterexample: an order created through the order route with a
single line item worth 10 but client-supplied total 120 receives
escrowAmount 120 while the vendor shares sum to 20 times less; and with
client-supplied total 5 the pending credit of vendor vA is 20, strictly
exceeding the escrow amount, so neither the equality nor the bound of the
claim holds. -/
theorem sharesSum_ne_escrowAmount_cex :
    (sharesSum (createAndSaveOrder [exItemA] 10 5 2 120 .completed (fun _ => none)).1.items ≠
       (createAndSaveOrder [exItemA] 10 5 2 120 .completed (fun _ => none)).1.escrowAmount) ∧
    ((createAndSaveOrder [exItemA] 20 0 0 5 .completed exBalZero).1.escrowAmount = 5 ∧
     ((createAndSaveOrder [exItemA] 20 0 0 5 .completed exBalZero).2 "vA").map
        VendorBalance.pendingBalance = some 20) := by
  refine ⟨?_, ?_, ?_⟩ <;>
    norm_num [createAndSaveOrder, createOrder, saveOrder, preSaveEscrow, postSaveHook,
      addToVendorPending, applyVendorAmounts, vendorAmounts, amtStep, addAmount,
      sharesSum, pendingUpdate, exItemA, exBalZero, exVBzero, List.foldl_cons,
      List.foldl_nil]

/-- C2 (amended): the sum of the per-vendor shares of an order equals the
sum of price times quantity over all line items (the items subtotal), and it
equals the escrow amount exactly when the escrow amount equals that items
subtotal; the order-attributable credit is bounded by the items subtotal,
not by the escrow amount, because the escrow amount is the client-supplied
total. -/
theorem sharesSum_eq_itemsSubtotal_spec (o : Order) :
    sharesSum o.items = itemsSubtotal o.items ∧
    (o.escrowAmount = itemsSubtotal o.items → sharesSum o.items = o.escrowAmount) := by
  refine ⟨sharesSum_eq_itemsSubtotal o.items, fun h => ?_⟩
  rw [sharesSum_eq_itemsSubtotal, h]

/-- C2 witness: the held example order, whose escrow amount 20 equals its
items subtotal. -/
theorem sharesSum_eq_itemsSubtotal_spec_witness :
    sharesSum exHeldOrder.items = itemsSubtotal exHeldOrder.items ∧
    sharesSum exHeldOrder.items = exHeldOrder.escrowAmount :=
  ⟨(sharesSum_eq_itemsSubtotal_spec exHeldOrder).1,
   (sharesSum_eq_itemsSubtotal_spec exHeldOrder).2
     (by norm_num [exHeldOrder, exItemA, itemsSubtotal])⟩

/-- C3: releaseEscrow on an order whose escrow is not held fails with the
escrow-not-held error, the admin force-release route leaves the order and
every balance unchanged, and any successful release starts from a held
order and ends in a released one; a second release attempt on the result is
rejected with no further balance change, so escrow status only moves
forward out of held. -/
theorem releaseEscrow_notHeld_rejected (now now2 : Time) (o : Order) (bal : Balances)
    (h : o.escrowStatus ≠ .held) :
    releaseEscrow now o bal = .error "Escrow funds are not held" ∧
    adminReleaseEscrowRoute now o bal = (.notHeld, o, bal) ∧
    (∀ o1 bal1 o2 bal2, releaseEscrow now o1 bal1 = .ok (o2, bal2) →
      o1.escrowStatus = .held ∧ o2.escrowStatus = .released ∧
      releaseEscrow now2 o2 bal2 = .error "Escrow funds are not held" ∧
      adminReleaseEscrowRoute now2 o2 bal2 = (.notHeld, o2, bal2)) := by
  refine ⟨?_, ?_, ?_⟩
  · rw [releaseEscrow, if_pos h]
  · rw [adminReleaseEscrowRoute, if_pos h]
  · intro o1 bal1 o2 bal2 hok
    by_cases h1 : o1.escrowStatus = EscrowStatus.held
    · have hng : ¬ o1.escrowStatus ≠ EscrowStatus.held := fun hh => hh h1
      rw [releaseEscrow, if_neg hng] at hok
      simp only [Except.ok.injEq, Prod.mk.injEq] at hok
      obtain ⟨ho2, hbal2⟩ := hok
      subst ho2
      have hrel : ({ o1 with
          escrowStatus := EscrowStatus.released
          escrowReleaseDate := some now } : Order).escrowStatus = .released := rfl
      have hne2 : ({ o1 with
          escrowStatus := EscrowStatus.released
          escrowReleaseDate := some now } : Order).escrowStatus ≠ EscrowStatus.held := by
        rw [hrel]
        exact fun hh => EscrowStatus.noConfusion hh
      refine ⟨h1, hrel, ?_, ?_⟩
      · rw [releaseEscrow, if_pos hne2]
      · rw [adminReleaseEscrowRoute, if_pos hne2]
    · rw [releaseEscrow, if_pos h1] at hok
      exact absurd hok (fun hh => Except.noConfusion hh)

/-- C3 witness: a released order is rejected, and releasing the held example
order once succeeds while the second attempt is rejected. -/
theorem releaseEscrow_notHeld_rejected_witness :
    releaseEscrow 1 exReleasedOrder exBalPend = .error "Escrow funds are not held" ∧
    adminReleaseEscrowRoute 1 exReleasedOrder exBalPend = (.notHeld, exReleasedOrder, exBalPend) ∧
    (exHeldOrder.escrowStatus = .held ∧
     ({ exHeldOrder with escrowStatus := .released, escrowReleaseDate := some 1 } : Order).escrowStatus = .released ∧
     releaseEscrow 2 { exHeldOrder with escrowStatus := .released, escrowReleaseDate := some 1 }
        (applyVendorAmounts releaseUpdate (vendorAmounts exHeldOrder.items) exBalPend) =
       .error "Escrow funds are not held" ∧
     adminReleaseEscrowRoute 2 { exHeldOrder with escrowStatus := .released, escrowReleaseDate := some 1 }
        (applyVendorAmounts releaseUpdate (vendorAmounts exHeldOrder.items) exBalPend) =
       (.notHeld, { exHeldOrder with escrowStatus := .released, escrowReleaseDate := some 1 },
        applyVendorAmounts releaseUpdate (vendorAmounts exHeldOrder.items) exBalPend)) := by
  have h := releaseEscrow_notHeld_rejected 1 2 exReleasedOrder exBalPend (by decide)
  exact ⟨h.1, h.2.1, h.2.2 exHeldOrder exBalPend _ _ rfl⟩

/-- C4 counterexample: an order created with held escrow but the default
pending payment status credits nothing: vendor vA has share 20 yet its
pending balance stays 0 after the order is persisted. -/
theorem createOrder_pendingCredit_cex :
    (createAndSaveOrder [exItemA] 20 0 0 20 .pending exBalZero).1.escrowStatus = .held ∧
    (createAndSaveOrder [exItemA] 20 0 0 20 .pending exBalZero).1.status = .pending ∧
    vendorShare "vA" [exItemA] = 20 ∧
    ((createAndSaveOrder [exItemA] 20 0 0 20 .pending exBalZero).2 "vA").map
      VendorBalance.pendingBalance = some 0 := by
  have hne : ¬ (PaymentStatus.pending = PaymentStatus.completed) := by decide
  refine ⟨?_, ?_, ?_, ?_⟩ <;>
    norm_num [createAndSaveOrder, createOrder, saveOrder, preSaveEscrow, postSaveHook,
      vendorShare, exItemA, exBalZero, exVBzero, hne]

/-- C4 (amended): persisting a newly created order whose escrow is held and
whose payment status is completed credits, for every distinct vendor of the
line items that has a balance document, that vendor's pending balance by
exactly the sum of price times quantity over its items; vendors not in the
order are untouched; persisting an order again with isNew false changes
nothing, so the credit fires exactly once per order; and a creation with any
payment status other than completed credits nothing. -/
theorem createOrder_pendingCredit_spec (items : List OrderItem)
    (st sc tx tot : Money) (bal : Balances) :
    (∀ v b, v ∈ items.map OrderItem.vendor → bal v = some b →
      (createAndSaveOrder items st sc tx tot .completed bal).2 v =
        some { b with pendingBalance := b.pendingBalance + vendorShare v items }) ∧
    (∀ v, v ∉ items.map OrderItem.vendor →
      (createAndSaveOrder items st sc tx tot .completed bal).2 v = bal v) ∧
    (∀ (o : Order) (bal2 : Balances), saveOrder false o bal2 = (o, bal2)) ∧
    (∀ ps, ps ≠ PaymentStatus.completed →
      ∀ v, (createAndSaveOrder items st sc tx tot ps bal).2 v = bal v) := by
  have h2 : (createAndSaveOrder items st sc tx tot .completed bal).2 =
      applyVendorAmounts pendingUpdate (vendorAmounts items) bal := by
    simp [createAndSaveOrder, saveOrder, createOrder, preSaveEscrow, postSaveHook,
      addToVendorPending]
  refine ⟨?_, ?_, ?_, ?_⟩
  · intro v b hv hb
    rw [h2, fanout_eval, if_pos hv, hb]
    rfl
  · intro v hv
    rw [h2, fanout_eval, if_neg hv]
  · intro o bal2
    simp [saveOrder, preSaveEscrow, postSaveHook]
  · intro ps hps v
    simp [createAndSaveOrder, saveOrder, createOrder, preSaveEscrow, postSaveHook, hps]

/-- C4 witness: creating the one-item vA order with completed payment
credits vA by its share once, and the same creation with pending payment
leaves the balance untouched. -/
theorem createOrder_pendingCredit_spec_witness :
    (createAndSaveOrder [exItemA] 20 0 0 20 .completed exBalZero).2 "vA" =
      some { exVBzero with
             pendingBalance := exVBzero.pendingBalance + vendorShare "vA" [exItemA] } ∧
    (createAndSaveOrder [exItemA] 20 0 0 20 .pending exBalZero).2 "vA" = exBalZero "vA" :=
  ⟨(createOrder_pendingCredit_spec [exItemA] 20 0 0 20 exBalZero).1 "vA" exVBzero
      (by decide) (by simp [exBalZero]),
   (createOrder_pendingCredit_spec [exItemA] 20 0 0 20 exBalZero).2.2.2 .pending
      (by decide) "vA"⟩

/-- C5 counterexample: with minimum payout lowered to 5 and available
balance 100, a payout request of 7 by the owning vendor with an active bank
account satisfies minimumPayoutAmount <= amount <= availableBalance, yet the
route rejects it through the express-validator floor of 10.00. -/
theorem payoutRoute_below10_cex :
    payoutRoute 0 "vendor" true (some exVBmin5) exBanks 7 = (.validationFailed, some exVBmin5) ∧
    exVBmin5.minimumPayoutAmount ≤ 7 ∧ (7 : Money) ≤ exVBmin5.availableBalance ∧
    exVBmin5.bankAccount = some "ba1" ∧ exBanks "ba1" = some { isActive := true } := by
  refine ⟨?_, ?_, ?_, ?_, ?_⟩
  · norm_num [payoutRoute]
  · norm_num [exVBmin5, exVBzero]
  · norm_num [exVBmin5, exVBzero]
  · rfl
  · simp [exBanks]

/-- C5 (amended): a payout request below the vendor minimum never succeeds;
every failing outcome leaves the balance document unchanged; and for the
owning vendor with an active bank account, an amount that also meets the
route-level floor of 10.00 fails with the insufficient-balance outcome when
it exceeds availableBalance and otherwise succeeds, debiting
availableBalance, crediting totalPayouts and recording the payout. -/
theorem payoutRoute_spec (now : Time) (role : String) (vendorExists : Bool)
    (b : VendorBalance) (banks : String → Option BankAccount) (amount : Money) :
    (amount < b.minimumPayoutAmount →
      (payoutRoute now role vendorExists (some b) banks amount).1 ≠ .ok) ∧
    ((payoutRoute now role vendorExists (some b) banks amount).1 ≠ .ok →
      (payoutRoute now role vendorExists (some b) banks amount).2 = some b) ∧
    (∀ baId ba, role = "vendor" → vendorExists = true → b.bankAccount = some baId →
      banks baId = some ba → ba.isActive = true → 10 ≤ amount →
      b.minimumPayoutAmount ≤ amount →
      ((b.availableBalance < amount →
         payoutRoute now role vendorExists (some b) banks amount =
           (.insufficientAvailable, some b)) ∧
       (amount ≤ b.availableBalance →
         payoutRoute now role vendorExists (some b) banks amount =
           (.ok, some { b with
                        availableBalance := b.availableBalance - amount
                        totalPayouts := b.totalPayouts + amount
                        lastPayout := some now
                        lastPayoutAmount := amount })))) := by
  have hcases :
      (payoutRoute now role vendorExists (some b) banks amount).1 = .ok →
        ¬ amount < b.minimumPayoutAmount := by
    intro hok
    rw [payoutRoute] at hok
    by_cases c1 : amount < 10
    · simp [c1] at hok
    · by_cases c2 : role ≠ "vendor"
      · simp [c1, c2] at hok
      · by_cases c3 : ¬ vendorExists = true
        · simp [c1, c2, c3] at hok
        · cases hba : b.bankAccount with
          | none => simp [c1, c2, c3, hba] at hok
          | some baId =>
            cases hbank : banks baId with
            | none => simp [c1, c2, c3, hba, hbank] at hok
            | some ba =>
              by_cases c5 : ba.isActive
              · by_cases c6 : amount < b.minimumPayoutAmount
                · simp [c1, c2, c3, hba, hbank, c5, c6] at hok
                · exact c6
              · simp [c1, c2, c3, hba, hbank, c5] at hok
  have hsnd :
      (payoutRoute now role vendorExists (some b) banks amount).1 ≠ .ok →
        (payoutRoute now role vendorExists (some b) banks amount).2 = some b := by
    intro hnok
    by_cases c1 : amount < 10
    · simp [payoutRoute, c1]
    · by_cases c2 : role ≠ "vendor"
      · simp [payoutRoute, c1, c2]
      · by_cases c3 : ¬ vendorExists = true
        · simp [payoutRoute, c1, c2, c3]
        · cases hba : b.bankAccount with
          | none => simp [payoutRoute, c1, c2, c3, hba]
          | some baId =>
            cases hbank : banks baId with
            | none => simp [payoutRoute, c1, c2, c3, hba, hbank]
            | some ba =>
              by_cases c5 : ba.isActive
              · by_cases c6 : amount < b.minimumPayoutAmount
                · simp [payoutRoute, c1, c2, c3, hba, hbank, c5, c6]
                · by_cases c7 : amount > b.availableBalance
                  · simp [payoutRoute, c1, c2, c3, hba, hbank, c5, c6, c7]
                  · exfalso
                    apply hnok
                    simp [payoutRoute, processPayout, c1, c2, c3, hba, hbank, c5, c6, c7]
              · simp [payoutRoute, c1, c2, c3, hba, hbank, c5]
  refine ⟨?_, hsnd, ?_⟩
  · intro hlt hok
    exact hcases hok hlt
  · intro baId ba hrole hve hba hbank hact h10 hmin
    have c1 : ¬ amount < 10 := not_lt.mpr h10
    have c2 : ¬ role ≠ "vendor" := fun hh => hh hrole
    have c3 : ¬ ¬ vendorExists = true := fun hh => hh hve
    have c6 : ¬ amount < b.minimumPayoutAmount := not_lt.mpr hmin
    constructor
    · intro hinsuf
      have c7 : amount > b.availableBalance := hinsuf
      simp [payoutRoute, c1, c2, c3, hba, hbank, hact, c6, c7]
    · intro hle
      have c7 : ¬ amount > b.availableBalance := not_lt.mpr hle
      simp [payoutRoute, processPayout, c1, c2, c3, hba, hbank, hact, c6, c7]

/-- C5 witness: a payout of 10.00 with exactly 10.00 available and minimum
10.00 succeeds and debits the full available balance. -/
theorem payoutRoute_spec_witness :
    payoutRoute 5 "vendor" true (some exVBten) exBanks 10 =
      (.ok, some { exVBten with
                   availableBalance := exVBten.availableBalance - 10
                   totalPayouts := exVBten.totalPayouts + 10
                   lastPayout := some 5
                   lastPayoutAmount := 10 }) ∧
    exVBten.availableBalance - 10 = 0 := by
  refine ⟨((payoutRoute_spec 5 "vendor" true exVBten exBanks 10).2.2 "ba1"
      { isActive := true } rfl rfl rfl (by simp [exBanks]) rfl (by norm_num)
      (by norm_num [exVBten, exVBzero])).2 (by norm_num [exVBten, exVBzero]), ?_⟩
  norm_num [exVBten, exVBzero]

/-- C6 counterexample: a proof whose canReupload flag is false is
nevertheless reuploaded successfully one minute after upload, because the
reupload branch checks only the minutes elapsed since uploadedAt and never
consults canReupload. -/
theorem reupload_ignores_canReupload_cex :
    exProofNoReup.canReupload = false ∧
    (60000 : Time) < exProofNoReup.reuploadExpiresAt ∧
    reuploadProof 60000 "u2" "i2" exProofNoReup =
      .ok { exProofNoReup with
            imageUrl := "u2"
            imageId := "i2"
            uploadedAt := 60000
            reuploadExpiresAt := 60000 + 15 * 60 * 1000 } := by
  refine ⟨rfl, ?_, ?_⟩
  · norm_num [exProofNoReup, exProof]
  · rw [reuploadProof, if_neg (by norm_num [exProofNoReup, exProof])]
    rfl

/-- C6 (amended): for every existing delivery proof, a vendor reupload
succeeds if and only if at most 15 minutes have elapsed since uploadedAt,
regardless of the canReupload flag; on success the image fields are
overwritten, uploadedAt is reset to now and the pre save hook resets
reuploadExpiresAt to now plus 15 minutes, extending the window; past 15
minutes it fails with the reupload-window-expired error. -/
theorem reuploadProof_spec (now : Time) (u i : String) (p : DeliveryProof) :
    (now - p.uploadedAt ≤ 900000 →
      reuploadProof now u i p =
        .ok { p with
              imageUrl := u
              imageId := i
              uploadedAt := now
              reuploadExpiresAt := now + 15 * 60 * 1000 }) ∧
    (900000 < now - p.uploadedAt →
      reuploadProof now u i p =
        .error "Re-upload window has expired. You can only re-upload within 15 minutes of the original upload.") := by
  constructor
  · intro h
    have hle : (now - p.uploadedAt) / (1000 * 60) ≤ 15 := by
      rw [div_le_iff₀ (by norm_num : (0 : ℚ) < 1000 * 60)]
      linarith
    rw [reuploadProof, if_neg (not_lt.mpr hle)]
    rfl
  · intro h
    have hgt : (15 : ℚ) < (now - p.uploadedAt) / (1000 * 60) := by
      rw [lt_div_iff₀ (by norm_num : (0 : ℚ) < 1000 * 60)]
      linarith
    rw [reuploadProof, if_pos hgt]

/-- C6 witness: a reupload 14 minutes 59 seconds after upload succeeds and
resets the window, a reupload 15 minutes 1 second after upload fails with
the window-expired error. -/
theorem reuploadProof_spec_witness :
    reuploadProof 899000 "u2" "i2" exProof =
      .ok { exProof with
            imageUrl := "u2"
            imageId := "i2"
            uploadedAt := 899000
            reuploadExpiresAt := 899000 + 15 * 60 * 1000 } ∧
    reuploadProof 901000 "u2" "i2" exProof =
      .error "Re-upload window has expired. You can only re-upload within 15 minutes of the original upload." :=
  ⟨(reuploadProof_spec 899000 "u2" "i2" exProof).1 (by norm_num [exProof]),
   (reuploadProof_spec 901000 "u2" "i2" exProof).2 (by norm_num [exProof])⟩

/-- C7 counterexample: approving the proof of an order whose status is
pending records the approval but leaves the order status pending, not
shipped: only processing orders are advanced. -/
theorem approve_pending_not_shipped_cex :
    (adminReviewRoute 5 "adm" "n" .approve exProof (createOrder [] 0 0 0 0 .pending)).2.status
      = .pending ∧
    (adminReviewRoute 5 "adm" "n" .approve exProof
        (createOrder [] 0 0 0 0 .pending)).1.verificationStatus = .approved := by
  constructor
  · rfl
  · rfl

/-- C7 (amended): admin approval of a delivery proof sets verificationStatus
to approved, records the reviewer and review time and sets canReupload to
false; no modelled later operation ever sets canReupload back to true; the
associated order is advanced to shipped only when its status was processing
and is left entirely unchanged otherwise, in particular a pending order
stays pending. -/
theorem adminApprove_spec (now : Time) (adminId notes : String) (p : DeliveryProof)
    (o : Order) :
    ((adminReviewRoute now adminId notes .approve p o).1.verificationStatus = .approved ∧
     (adminReviewRoute now adminId notes .approve p o).1.reviewedBy = some adminId ∧
     (adminReviewRoute now adminId notes .approve p o).1.reviewedAt = some now ∧
     (adminReviewRoute now adminId notes .approve p o).1.canReupload = false) ∧
    (o.status = .processing →
      (adminReviewRoute now adminId notes .approve p o).2.status = .shipped) ∧
    (o.status ≠ .processing →
      (adminReviewRoute now adminId notes .approve p o).2 = o) ∧
    (∀ q : DeliveryProof, q.canReupload = false →
      (rejectProof now adminId notes q).canReupload = false ∧
      (requiresReviewProof now adminId notes q).canReupload = false ∧
      (approveProof now adminId notes q).canReupload = false ∧
      (∀ m : Bool, (proofPreSave m q).canReupload = false) ∧
      (∀ t u i q2, reuploadProof t u i q = .ok q2 → q2.canReupload = false)) := by
  refine ⟨⟨rfl, rfl, rfl, rfl⟩, ?_, ?_, ?_⟩
  · intro h
    simp only [adminReviewRoute, if_pos h]
  · intro h
    simp only [adminReviewRoute, if_neg h]
  · intro q hq
    refine ⟨hq, hq, rfl, ?_, ?_⟩
    · intro m
      cases m
      · exact hq
      · exact hq
    · intro t u i q2 hok
      by_cases hc : (t - q.uploadedAt) / (1000 * 60) > 15
      · rw [reuploadProof, if_pos hc] at hok
        exact absurd hok (fun hh => Except.noConfusion hh)
      · rw [reuploadProof, if_neg hc] at hok
        simp only [Except.ok.injEq] at hok
        rw [← hok]
        exact hq

/-- C7 witness: approving the proof of a processing order ships it, a
pending order is untouched, and no operation resurrects canReupload. -/
theorem adminApprove_spec_witness :
    (adminReviewRoute 7 "adm" "" .approve exProof exProcessingOrder).1.canReupload = false ∧
    (adminReviewRoute 7 "adm" "" .approve exProof exProcessingOrder).2.status = .shipped ∧
    (adminReviewRoute 7 "adm" "" .approve exProof exHeldOrder).2 = exHeldOrder ∧
    (rejectProof 7 "adm" "" exProofNoReup).canReupload = false :=
  ⟨(adminApprove_spec 7 "adm" "" exProof exProcessingOrder).1.2.2.2,
   (adminApprove_spec 7 "adm" "" exProof exProcessingOrder).2.1 rfl,
   (adminApprove_spec 7 "adm" "" exProof exHeldOrder).2.2.1 (by decide),
   ((adminApprove_spec 7 "adm" "" exProof exHeldOrder).2.2.2 exProofNoReup rfl).1⟩

/-- C10: in both the pending fan-out and the release fan-out, a vendor of
the order without a balance document is silently skipped: the pending
fan-out raises no error and leaves the missing document missing,
releaseEscrow still succeeds and marks the order released, and afterwards
neither a rerun of the pending fan-out nor of releaseEscrow ever credits
that vendor, whatever balances exist by then. -/
theorem missingVendorBalance_skipped (now : Time) (o : Order) (bal : Balances) (v : String)
    (h1 : o.escrowStatus = .held) (h2 : bal v = none)
    (h3 : v ∈ o.items.map OrderItem.vendor) :
    addToVendorPending o bal v = none ∧
    (∃ o2 bal2, releaseEscrow now o bal = .ok (o2, bal2) ∧
      o2.escrowStatus = .released ∧ bal2 v = none ∧
      (∀ bal3, addToVendorPending o2 bal3 = bal3) ∧
      (∀ now2 bal3, releaseEscrow now2 o2 bal3 = .error "Escrow funds are not held")) := by
  have hng : ¬ o.escrowStatus ≠ EscrowStatus.held := fun hh => hh h1
  constructor
  · rw [addToVendorPending, if_neg hng, fanout_eval, if_pos h3, h2]
    rfl
  · refine ⟨{ o with escrowStatus := .released, escrowReleaseDate := some now },
      applyVendorAmounts releaseUpdate (vendorAmounts o.items) bal, ?_, rfl, ?_, ?_, ?_⟩
    · rw [releaseEscrow, if_neg hng]
    · rw [fanout_eval, if_pos h3, h2]
      rfl
    · intro bal3
      have hne : ({ o with
          escrowStatus := EscrowStatus.released
          escrowReleaseDate := some now } : Order).escrowStatus ≠ EscrowStatus.held :=
        fun hh => EscrowStatus.noConfusion hh
      rw [addToVendorPending, if_pos hne]
    · intro now2 bal3
      have hne : ({ o with
          escrowStatus := EscrowStatus.released
          escrowReleaseDate := some now } : Order).escrowStatus ≠ EscrowStatus.held :=
        fun hh => EscrowStatus.noConfusion hh
      rw [releaseEscrow, if_pos hne]

/-- C10 witness: vendor vB of the two-vendor held order has no balance
document and is skipped while the order is still released. -/
theorem missingVendorBalance_skipped_witness :
    addToVendorPending exHeldOrderAB exBalPend "vB" = none ∧
    (∃ o2 bal2, releaseEscrow 3 exHeldOrderAB exBalPend = .ok (o2, bal2) ∧
      o2.escrowStatus = .released ∧ bal2 "vB" = none ∧
      (∀ bal3, addToVendorPending o2 bal3 = bal3) ∧
      (∀ now2 bal3, releaseEscrow now2 o2 bal3 = .error "Escrow funds are not held")) :=
  missingVendorBalance_skipped 3 exHeldOrderAB exBalPend "vB" rfl rfl (by decide)

theorem testCards_luhnOk :
    ∀ c ∈ testCardNumbers, cardShapeOk c.data = true ∧ luhnOk c.data = true := by
  decide

/-- C9: validateCardNumber normalises away whitespace and dashes, rejects
any input whose normalisation is not 13 to 19 digits, accepts
4111111111111111 and rejects 4111111111111112 in every mode, and accepts
exactly the inputs whose normalisation passes the Luhn checksum or is on the
fixed allow-list of test numbers outside production; since every
allow-listed number itself passes the Luhn checksum, the acceptance
behaviour is the same in every mode. -/
theorem validateCardNumber_spec :
    (∀ env, validateCardNumber env "4111111111111111" = true) ∧
    (∀ env, validateCardNumber env "4111 1111-1111 1111" = true) ∧
    (∀ env, validateCardNumber env "4111111111111112" = false) ∧
    (∀ env s, ¬ cardShapeOk (cleanCardChars s) = true → validateCardNumber env s = false) ∧
    (∀ env s, validateCardNumber env s = true ↔
      (s ≠ "" ∧ cardShapeOk (cleanCardChars s) = true ∧
        (luhnOk (cleanCardChars s) = true ∨
          (env ≠ "production" ∧
            testCardNumbers.contains (String.mk (cleanCardChars s)) = true)))) := by
  have hshapeRej : ∀ env s, ¬ cardShapeOk (cleanCardChars s) = true →
      validateCardNumber env s = false := by
    intro env s hsh
    rw [validateCardNumber]
    by_cases hs : s = ""
    · rw [if_pos hs]
    · rw [if_neg hs, if_pos hsh]
  have hiff : ∀ env s, validateCardNumber env s = true ↔
      (s ≠ "" ∧ cardShapeOk (cleanCardChars s) = true ∧
        (luhnOk (cleanCardChars s) = true ∨
          (env ≠ "production" ∧
            testCardNumbers.contains (String.mk (cleanCardChars s)) = true))) := by
    intro env s
    constructor
    · intro hv
      rw [validateCardNumber] at hv
      by_cases hs : s = ""
      · rw [if_pos hs] at hv
        exact absurd hv (by simp)
      · rw [if_neg hs] at hv
        by_cases hsh : cardShapeOk (cleanCardChars s) = true
        · refine ⟨hs, hsh, ?_⟩
          by_cases hdev : env = "development" ∧
              testCardNumbers.contains (String.mk (cleanCardChars s)) = true
          · left
            have hmem : String.mk (cleanCardChars s) ∈ testCardNumbers := by
              simpa using hdev.2
            exact (testCards_luhnOk _ hmem).2
          · rw [if_neg (fun hh => hh hsh), if_neg hdev] at hv
            exact .inl hv
        · rw [if_pos hsh] at hv
          exact absurd hv (by simp)
    · rintro ⟨hs, hsh, hrest⟩
      rw [validateCardNumber, if_neg hs, if_neg (fun hh => hh hsh)]
      by_cases hdev : env = "development" ∧
          testCardNumbers.contains (String.mk (cleanCardChars s)) = true
      · rw [if_pos hdev]
      · rw [if_neg hdev]
        rcases hrest with hl | ⟨hnp, hc⟩
        · exact hl
        · have hmem : String.mk (cleanCardChars s) ∈ testCardNumbers := by
            simpa using hc
          exact (testCards_luhnOk _ hmem).2
  refine ⟨?_, ?_, ?_, hshapeRej, hiff⟩
  · intro env
    exact (hiff env _).2 ⟨by decide, by decide, .inl (by decide)⟩
  · intro env
    exact (hiff env _).2 ⟨by decide, by decide, .inl (by decide)⟩
  · intro env
    cases hv : validateCardNumber env "4111111111111112" with
    | false => rfl
    | true =>
      rcases (hiff env _).1 hv with ⟨-, -, hl | ⟨-, hc⟩⟩
      · exact absurd hl (by decide)
      · exact absurd hc (by decide)

/-- C9 witness: the Luhn examples evaluated in the test mode and a
shape-rejected input in production mode. -/
theorem validateCardNumber_spec_witness :
    validateCardNumber "test" "4111111111111111" = true ∧
    validateCardNumber "test" "4111111111111112" = false ∧
    validateCardNumber "production" "41111111" = false :=
  ⟨validateCardNumber_spec.1 "test",
   validateCardNumber_spec.2.2.1 "test",
   validateCardNumber_spec.2.2.2.1 "production" "41111111" (by decide)⟩

/-! ### Byte-level lemmas for the Sensitive Data Vault -/

theorem exists_cons_of_le_length (l : List ℕ) (n : ℕ) (h : n + 1 ≤ l.length) :
    ∃ a t, l = a :: t ∧ n ≤ t.length := by
  cases l with
  | nil => simp at h
  | cons a t =>
    refine ⟨a, t, rfl, ?_⟩
    simpa using h

theorem getD_lt_of_all (l : List ℕ) (n : ℕ) (d : ℕ) (hl : ∀ x ∈ l, x < 256)
    (hd : d < 256) : l.getD n d < 256 := by
  rcases h : l.get? n with _ | x
  · rw [List.getD_eq_getElem?_getD, ← List.get?_eq_getElem?, h]
    exact hd
  · rw [List.getD_eq_getElem?_getD, ← List.get?_eq_getElem?, h]
    exact hl x (List.get?_mem h)

theorem xor_lt_256 {x y : ℕ} (hx : x < 256) (hy : y < 256) : x ^^^ y < 256 := by
  have h256 : (256 : ℕ) = 2 ^ 8 := by norm_num
  rw [h256] at hx hy ⊢
  exact Nat.xor_lt_two_pow hx hy

theorem hexDigitVal_hexChar : ∀ n < 16, hexDigitVal (hexChar n) = n := by decide

theorem hexChar_ne_colon : ∀ n < 16, hexChar n ≠ ':' := by decide

theorem hexToBytes_bytesToHex (bs : List ℕ) (h : ∀ b ∈ bs, b < 256) :
    hexToBytes (bytesToHex bs) = bs := by
  induction bs with
  | nil => rfl
  | cons b rest ih =>
    have hb : b < 256 := h b (by simp)
    have hdiv : b / 16 < 16 := by omega
    have hmod : b % 16 < 16 := by omega
    rw [bytesToHex, hexToBytes, hexDigitVal_hexChar _ hdiv, hexDigitVal_hexChar _ hmod,
      ih (fun x hx => h x (by simp [hx]))]
    congr 1
    omega

theorem bytesToHex_colon_free (bs : List ℕ) (h : ∀ b ∈ bs, b < 256) :
    ∀ c ∈ bytesToHex bs, c ≠ ':' := by
  induction bs with
  | nil => simp [bytesToHex]
  | cons b rest ih =>
    have hb : b < 256 := h b (by simp)
    intro c hc
    rw [bytesToHex] at hc
    simp only [List.mem_cons] at hc
    rcases hc with hc | hc | hc
    · exact hc ▸ hexChar_ne_colon _ (by omega)
    · exact hc ▸ hexChar_ne_colon _ (by omega)
    · exact ih (fun x hx => h x (by simp [hx])) c hc

theorem bytesToHex_length (bs : List ℕ) : (bytesToHex bs).length = 2 * bs.length := by
  induction bs with
  | nil => rfl
  | cons b rest ih =>
    rw [bytesToHex]
    simp [ih]
    ring

theorem splitColon_colon_free (l : List Char) (h : ∀ c ∈ l, c ≠ ':') :
    splitColon l = [l] := by
  induction l with
  | nil => rfl
  | cons c rest ih =>
    have hc : c ≠ ':' := h c (by simp)
    rw [splitColon]
    simp only [if_neg hc]
    rw [ih (fun x hx => h x (by simp [hx]))]

theorem splitColon_append (a b : List Char) (ha : ∀ c ∈ a, c ≠ ':') :
    splitColon (a ++ ':' :: b) = a :: splitColon b := by
  induction a with
  | nil =>
    simp only [List.nil_append]
    rw [splitColon, if_pos rfl]
  | cons c rest ih =>
    have hc : c ≠ ':' := ha c (by simp)
    simp only [List.cons_append]
    rw [splitColon]
    simp only [if_neg hc]
    rw [ih (fun x hx => ha x (by simp [hx]))]

theorem splitColon_two (a b : List Char) (ha : ∀ c ∈ a, c ≠ ':')
    (hb : ∀ c ∈ b, c ≠ ':') : splitColon (a ++ ':' :: b) = [a, b] := by
  rw [splitColon_append a b ha, splitColon_colon_free b hb]

theorem replicate_getLast (k x : ℕ) (h : 0 < k) :
    (List.replicate k x).getLast? = some x := by
  induction k with
  | zero => omega
  | succ n ih =>
    cases n with
    | zero => rfl
    | succ m =>
      rw [List.replicate_succ, List.getLast?_cons, ih (by omega)]
      simp [List.replicate]

theorem pkcs7unpad_pkcs7pad (bs : List ℕ) : pkcs7unpad (pkcs7pad bs) = some bs := by
  set k := 16 - bs.length % 16 with hk
  have hk1 : 1 ≤ k := by omega
  have hk16 : k ≤ 16 := by omega
  have hlen : (pkcs7pad bs).length = bs.length + k := by
    simp [pkcs7pad, ← hk]
  have hlast : (pkcs7pad bs).getLast? = some k := by
    rw [pkcs7pad, List.getLast?_append_of_ne_nil, replicate_getLast k k (by omega)]
    simp [← hk]
    omega
  simp only [pkcs7unpad, hlast]
  have hdk : (pkcs7pad bs).length - k = bs.length := by omega
  have hdrop : (pkcs7pad bs).drop bs.length = List.replicate k k := by
    rw [pkcs7pad, List.drop_left' rfl]
  have htake : (pkcs7pad bs).take bs.length = bs := by
    rw [pkcs7pad, List.take_left' rfl]
  rw [if_pos]
  · rw [hdk, htake]
  · refine ⟨hk1, hk16, by omega, ?_⟩
    rw [hdk, hdrop]
    simp

theorem utf8EncodeChar_lt (c : Char) : ∀ b ∈ utf8EncodeChar c, b < 256 := by
  have hv : c.toNat < 0xd800 ∨ (0xdfff < c.toNat ∧ c.toNat < 0x110000) := c.valid
  intro b hb
  rw [utf8EncodeChar] at hb
  by_cases h1 : c.toNat < 0x80
  · rw [if_pos h1] at hb
    simp only [List.mem_singleton] at hb
    omega
  · rw [if_neg h1] at hb
    by_cases h2 : c.toNat < 0x800
    · rw [if_pos h2] at hb
      simp only [List.mem_cons, List.mem_singleton, List.not_mem_nil, or_false] at hb
      rcases hb with rfl | rfl <;> omega
    · rw [if_neg h2] at hb
      by_cases h3 : c.toNat < 0x10000
      · rw [if_pos h3] at hb
        simp only [List.mem_cons, List.mem_singleton, List.not_mem_nil, or_false] at hb
        rcases hb with rfl | rfl | rfl <;> omega
      · rw [if_neg h3] at hb
        simp only [List.mem_cons, List.mem_singleton, List.not_mem_nil, or_false] at hb
        rcases hb with rfl | rfl | rfl | rfl <;> omega

theorem utf8EncodeChar_length_pos (c : Char) : 0 < (utf8EncodeChar c).length := by
  rw [utf8EncodeChar]
  by_cases h1 : c.toNat < 0x80
  · rw [if_pos h1]
    simp
  · rw [if_neg h1]
    by_cases h2 : c.toNat < 0x800
    · rw [if_pos h2]
      simp
    · rw [if_neg h2]
      by_cases h3 : c.toNat < 0x10000
      · rw [if_pos h3]
        simp
      · rw [if_neg h3]
        simp

theorem utf8Encode_lt (cs : List Char) : ∀ b ∈ utf8Encode cs, b < 256 := by
  induction cs with
  | nil => simp [utf8Encode]
  | cons c rest ih =>
    intro b hb
    rw [utf8Encode] at hb
    rcases List.mem_append.1 hb with hb | hb
    · exact utf8EncodeChar_lt c b hb
    · exact ih b hb

theorem utf8DecodeAux_nil (fuel : ℕ) : utf8DecodeAux fuel [] = [] := by
  cases fuel <;> rfl

theorem utf8DecodeAux_encodeChar (c : Char) (fuel : ℕ) (rest : List ℕ) :
    utf8DecodeAux (fuel + 1) (utf8EncodeChar c ++ rest) = c :: utf8DecodeAux fuel rest := by
  have hv : c.toNat < 0xd800 ∨ (0xdfff < c.toNat ∧ c.toNat < 0x110000) := c.valid
  by_cases h1 : c.toNat < 0x80
  · rw [utf8EncodeChar, if_pos h1]
    simp only [List.cons_append, List.nil_append]
    rw [utf8DecodeAux.eq_def]
    dsimp only
    rw [if_pos h1, Char.ofNat_toNat]
  · by_cases h2 : c.toNat < 0x800
    · rw [utf8EncodeChar, if_neg h1, if_pos h2]
      simp only [List.cons_append, List.nil_append]
      rw [utf8DecodeAux.eq_def]
      dsimp only
      have c1 : ¬ (0xC0 + c.toNat / 64 < 0x80) := by omega
      have c2 : ¬ (0xC0 + c.toNat / 64 < 0xC2) := by omega
      have c3 : 0xC0 + c.toNat / 64 < 0xE0 := by omega
      have c4 : 0x80 ≤ 0x80 + c.toNat % 64 ∧ 0x80 + c.toNat % 64 < 0xC0 := by omega
      rw [if_neg c1, if_neg c2, if_pos c3]
      try dsimp only
      rw [if_pos c4]
      have hrec : (0xC0 + c.toNat / 64 - 0xC0) * 64 + (0x80 + c.toNat % 64 - 0x80) =
          c.toNat := by omega
      rw [hrec, Char.ofNat_toNat]
    · by_cases h3 : c.toNat < 0x10000
      · rw [utf8EncodeChar, if_neg h1, if_neg h2, if_pos h3]
        simp only [List.cons_append, List.nil_append]
        rw [utf8DecodeAux.eq_def]
        dsimp only
        have c1 : ¬ (0xE0 + c.toNat / 4096 < 0x80) := by omega
        have c2 : ¬ (0xE0 + c.toNat / 4096 < 0xC2) := by omega
        have c3 : ¬ (0xE0 + c.toNat / 4096 < 0xE0) := by omega
        have c4 : 0xE0 + c.toNat / 4096 < 0xF0 := by omega
        have c5 : (0x80 ≤ 0x80 + c.toNat / 64 % 64 ∧ 0x80 + c.toNat / 64 % 64 < 0xC0) ∧
            (0x80 ≤ 0x80 + c.toNat % 64 ∧ 0x80 + c.toNat % 64 < 0xC0) ∧
            (0xE1 ≤ 0xE0 + c.toNat / 4096 ∨ 0xA0 ≤ 0x80 + c.toNat / 64 % 64) ∧
            (0xE0 + c.toNat / 4096 ≠ 0xED ∨ 0x80 + c.toNat / 64 % 64 < 0xA0) := by
          omega
        rw [if_neg c1, if_neg c2, if_neg c3, if_pos c4]
        try dsimp only
        rw [if_pos c5]
        have hrec : (0xE0 + c.toNat / 4096 - 0xE0) * 4096 +
            (0x80 + c.toNat / 64 % 64 - 0x80) * 64 + (0x80 + c.toNat % 64 - 0x80) =
            c.toNat := by omega
        rw [hrec, Char.ofNat_toNat]
      · rw [utf8EncodeChar, if_neg h1, if_neg h2, if_neg h3]
        simp only [List.cons_append, List.nil_append]
        rw [utf8DecodeAux]
        have hub : c.toNat < 0x110000 := by omega
        have c1 : ¬ (0xF0 + c.toNat / 262144 < 0x80) := by omega
        have c2 : ¬ (0xF0 + c.toNat / 262144 < 0xC2) := by omega
        have c3 : ¬ (0xF0 + c.toNat / 262144 < 0xE0) := by omega
        have c4 : ¬ (0xF0 + c.toNat / 262144 < 0xF0) := by omega
        have c5 : 0xF0 + c.toNat / 262144 < 0xF5 := by omega
        have c6 : (0x80 ≤ 0x80 + c.toNat / 4096 % 64 ∧ 0x80 + c.toNat / 4096 % 64 < 0xC0) ∧
            (0x80 ≤ 0x80 + c.toNat / 64 % 64 ∧ 0x80 + c.toNat / 64 % 64 < 0xC0) ∧
            (0x80 ≤ 0x80 + c.toNat % 64 ∧ 0x80 + c.toNat % 64 < 0xC0) ∧
            (0xF1 ≤ 0xF0 + c.toNat / 262144 ∨ 0x90 ≤ 0x80 + c.toNat / 4096 % 64) ∧
            (0xF0 + c.toNat / 262144 ≠ 0xF4 ∨ 0x80 + c.toNat / 4096 % 64 < 0x90) := by
          omega
        rw [if_neg c1, if_neg c2, if_neg c3, if_neg c4, if_pos c5]
        try dsimp only
        rw [if_pos c6]
        have hrec : (0xF0 + c.toNat / 262144 - 0xF0) * 262144 +
            (0x80 + c.toNat / 4096 % 64 - 0x80) * 4096 +
            (0x80 + c.toNat / 64 % 64 - 0x80) * 64 + (0x80 + c.toNat % 64 - 0x80) =
            c.toNat := by omega
        rw [hrec, Char.ofNat_toNat]

theorem utf8Decode_utf8Encode_aux (cs : List Char) :
    ∀ fuel, cs.length ≤ fuel → utf8DecodeAux fuel (utf8Encode cs) = cs := by
  induction cs with
  | nil =>
    intro fuel _
    rw [show utf8Encode [] = [] from rfl, utf8DecodeAux_nil]
  | cons c rest ih =>
    intro fuel hf
    cases fuel with
    | zero => simp at hf
    | succ f =>
      rw [utf8Encode, utf8DecodeAux_encodeChar, ih f (by simpa using hf)]

theorem utf8Encode_length_ge (cs : List Char) : cs.length ≤ (utf8Encode cs).length := by
  induction cs with
  | nil => simp [utf8Encode]
  | cons c rest ih =>
    rw [utf8Encode]
    have := utf8EncodeChar_length_pos c
    simp only [List.length_append, List.length_cons]
    omega

theorem utf8Decode_utf8Encode (cs : List Char) : utf8Decode (utf8Encode cs) = cs := by
  rw [utf8Decode]
  exact utf8Decode_utf8Encode_aux cs _ (utf8Encode_length_ge cs)

/-! ### GF(256) lemmas for the AES inverse -/

theorem xor_left_comm (a b c : ℕ) : a ^^^ (b ^^^ c) = b ^^^ (a ^^^ c) := by
  rw [← Nat.xor_assoc, Nat.xor_comm a b, Nat.xor_assoc]

theorem xor_lt_128 {x y : ℕ} (hx : x < 128) (hy : y < 128) : x ^^^ y < 128 := by
  have h128 : (128 : ℕ) = 2 ^ 7 := by norm_num
  rw [h128] at hx hy ⊢
  exact Nat.xor_lt_two_pow hx hy

theorem mul_two_xor (a b : ℕ) : (a ^^^ b) * 2 = a * 2 ^^^ b * 2 := by
  have h : ∀ z : ℕ, z * 2 = z <<< 1 := fun z => by rw [Nat.shiftLeft_eq, pow_one]
  rw [h, h, h]
  apply Nat.eq_of_testBit_eq
  intro i
  simp [Nat.testBit_shiftLeft, Nat.testBit_xor, Bool.and_xor_distrib_left]

theorem two_pow7_xor_eq_add : ∀ x < 128, 128 ^^^ x = 128 + x := by decide

set_option maxRecDepth 40000

theorem two_pow8_xor_eq_add : ∀ x < 256, 256 ^^^ x = 256 + x := by decide

theorem xor_cancel_pair (k a b : ℕ) : (k ^^^ a) ^^^ (k ^^^ b) = a ^^^ b := by
  rw [Nat.xor_assoc, xor_left_comm a k b, ← Nat.xor_assoc, Nat.xor_self, Nat.zero_xor]

theorem xtime_xor_lh (x y : ℕ) (hx7 : x < 128) (hy1 : 128 ≤ y) (hy : y < 256) :
    xtime (x ^^^ y) = xtime x ^^^ xtime y := by
  have hy' : y - 128 < 128 := by omega
  have hyd : y = 128 ^^^ (y - 128) := by
    rw [two_pow7_xor_eq_add _ hy']
    omega
  have hxy' : x ^^^ (y - 128) < 128 := xor_lt_128 hx7 hy'
  have hxy128 : x ^^^ y = 128 + (x ^^^ (y - 128)) := by
    conv_lhs => rw [hyd]
    rw [xor_left_comm x 128 (y - 128), two_pow7_xor_eq_add _ hxy']
  rw [xtime, xtime, xtime, if_neg (by omega), if_pos (by omega), if_neg (by omega),
    mul_two_xor, Nat.xor_assoc]

theorem xtime_xor_hh (x y : ℕ) (hx1 : 128 ≤ x) (hx : x < 256) (hy1 : 128 ≤ y)
    (hy : y < 256) : xtime (x ^^^ y) = xtime x ^^^ xtime y := by
  have hx' : x - 128 < 128 := by omega
  have hy' : y - 128 < 128 := by omega
  have hxd : x = 128 ^^^ (x - 128) := by
    rw [two_pow7_xor_eq_add _ hx']
    omega
  have hyd : y = 128 ^^^ (y - 128) := by
    rw [two_pow7_xor_eq_add _ hy']
    omega
  have hxy : x ^^^ y = (x - 128) ^^^ (y - 128) := by
    conv_lhs => rw [hxd, hyd]
    exact xor_cancel_pair 128 (x - 128) (y - 128)
  have hlow : (x - 128) ^^^ (y - 128) < 128 := xor_lt_128 hx' hy'
  rw [hxy, xtime, xtime, xtime, if_pos (by omega), if_neg (by omega), if_neg (by omega)]
  have ex : x * 2 = 256 ^^^ (x - 128) * 2 := by
    rw [two_pow8_xor_eq_add _ (by omega)]
    omega
  have ey : y * 2 = 256 ^^^ (y - 128) * 2 := by
    rw [two_pow8_xor_eq_add _ (by omega)]
    omega
  rw [mul_two_xor, ex, ey]
  have hcan : ∀ a b : ℕ, a ^^^ (a ^^^ b) = b := fun a b => by
    rw [← Nat.xor_assoc, Nat.xor_self, Nat.zero_xor]
  simp [Nat.xor_assoc, Nat.xor_comm, xor_left_comm, hcan, Nat.xor_self, Nat.xor_zero,
    Nat.zero_xor]

theorem xtime_xor (x y : ℕ) (hx : x < 256) (hy : y < 256) :
    xtime (x ^^^ y) = xtime x ^^^ xtime y := by
  by_cases hx7 : x < 128
  · by_cases hy7 : y < 128
    · have hxy : x ^^^ y < 128 := xor_lt_128 hx7 hy7
      rw [xtime, xtime, xtime, if_pos (by omega), if_pos (by omega), if_pos (by omega)]
      exact mul_two_xor x y
    · exact xtime_xor_lh x y hx7 (by omega) hy
  · by_cases hy7 : y < 128
    · rw [Nat.xor_comm x y, Nat.xor_comm (xtime x) (xtime y)]
      exact xtime_xor_lh y x hy7 (by omega) hx
    · exact xtime_xor_hh x y (by omega) hx (by omega) hy

theorem xtime_lt : ∀ x < 256, xtime x < 256 := by decide

theorem mul2_lt : ∀ x < 256, mul2 x < 256 := by decide

theorem mul3_lt : ∀ x < 256, mul3 x < 256 := by decide

theorem mul2_xor (x y : ℕ) (hx : x < 256) (hy : y < 256) :
    mul2 (x ^^^ y) = mul2 x ^^^ mul2 y := xtime_xor x y hx hy

theorem mul3_xor (x y : ℕ) (hx : x < 256) (hy : y < 256) :
    mul3 (x ^^^ y) = mul3 x ^^^ mul3 y := by
  rw [mul3, mul3, mul3, xtime_xor x y hx hy]
  simp [Nat.xor_assoc, Nat.xor_comm, xor_left_comm]

theorem mul9_xor (x y : ℕ) (hx : x < 256) (hy : y < 256) :
    mul9 (x ^^^ y) = mul9 x ^^^ mul9 y := by
  rw [mul9, mul9, mul9, xtime_xor x y hx hy,
    xtime_xor (xtime x) (xtime y) (xtime_lt x hx) (xtime_lt y hy),
    xtime_xor (xtime (xtime x)) (xtime (xtime y)) (xtime_lt _ (xtime_lt x hx))
      (xtime_lt _ (xtime_lt y hy))]
  simp [Nat.xor_assoc, Nat.xor_comm, xor_left_comm]

theorem mul11_xor (x y : ℕ) (hx : x < 256) (hy : y < 256) :
    mul11 (x ^^^ y) = mul11 x ^^^ mul11 y := by
  rw [mul11, mul11, mul11, xtime_xor x y hx hy,
    xtime_xor (xtime x) (xtime y) (xtime_lt x hx) (xtime_lt y hy),
    xtime_xor (xtime (xtime x)) (xtime (xtime y)) (xtime_lt _ (xtime_lt x hx))
      (xtime_lt _ (xtime_lt y hy))]
  simp [Nat.xor_assoc, Nat.xor_comm, xor_left_comm]

theorem mul13_xor (x y : ℕ) (hx : x < 256) (hy : y < 256) :
    mul13 (x ^^^ y) = mul13 x ^^^ mul13 y := by
  rw [mul13, mul13, mul13, xtime_xor x y hx hy,
    xtime_xor (xtime x) (xtime y) (xtime_lt x hx) (xtime_lt y hy),
    xtime_xor (xtime (xtime x)) (xtime (xtime y)) (xtime_lt _ (xtime_lt x hx))
      (xtime_lt _ (xtime_lt y hy))]
  simp [Nat.xor_assoc, Nat.xor_comm, xor_left_comm]

theorem mul14_xor (x y : ℕ) (hx : x < 256) (hy : y < 256) :
    mul14 (x ^^^ y) = mul14 x ^^^ mul14 y := by
  rw [mul14, mul14, mul14, xtime_xor x y hx hy,
    xtime_xor (xtime x) (xtime y) (xtime_lt x hx) (xtime_lt y hy),
    xtime_xor (xtime (xtime x)) (xtime (xtime y)) (xtime_lt _ (xtime_lt x hx))
      (xtime_lt _ (xtime_lt y hy))]
  simp [Nat.xor_assoc, Nat.xor_comm, xor_left_comm]

theorem gfL1 : ∀ x < 256, mul14 (mul2 x) ^^^ mul11 x ^^^ mul13 x ^^^ mul9 (mul3 x) = x := by
  decide

theorem gfL2 : ∀ x < 256, mul14 (mul3 x) ^^^ mul11 (mul2 x) ^^^ mul13 x ^^^ mul9 x = 0 := by
  decide

theorem gfL3 : ∀ x < 256, mul14 x ^^^ mul11 (mul3 x) ^^^ mul13 (mul2 x) ^^^ mul9 x = 0 := by
  decide

theorem gfL4 : ∀ x < 256, mul14 x ^^^ mul11 x ^^^ mul13 (mul3 x) ^^^ mul9 (mul2 x) = 0 := by
  decide

theorem mul9_xor4 (w x y z : ℕ) (hw : w < 256) (hx : x < 256) (hy : y < 256)
    (hz : z < 256) : mul9 (w ^^^ x ^^^ y ^^^ z) = mul9 w ^^^ mul9 x ^^^ mul9 y ^^^ mul9 z := by
  have h1 : w ^^^ x < 256 := xor_lt_256 hw hx
  have h2 : w ^^^ x ^^^ y < 256 := xor_lt_256 h1 hy
  rw [mul9_xor _ _ h2 hz, mul9_xor _ _ h1 hy, mul9_xor _ _ hw hx]

theorem mul11_xor4 (w x y z : ℕ) (hw : w < 256) (hx : x < 256) (hy : y < 256)
    (hz : z < 256) :
    mul11 (w ^^^ x ^^^ y ^^^ z) = mul11 w ^^^ mul11 x ^^^ mul11 y ^^^ mul11 z := by
  have h1 : w ^^^ x < 256 := xor_lt_256 hw hx
  have h2 : w ^^^ x ^^^ y < 256 := xor_lt_256 h1 hy
  rw [mul11_xor _ _ h2 hz, mul11_xor _ _ h1 hy, mul11_xor _ _ hw hx]

theorem mul13_xor4 (w x y z : ℕ) (hw : w < 256) (hx : x < 256) (hy : y < 256)
    (hz : z < 256) :
    mul13 (w ^^^ x ^^^ y ^^^ z) = mul13 w ^^^ mul13 x ^^^ mul13 y ^^^ mul13 z := by
  have h1 : w ^^^ x < 256 := xor_lt_256 hw hx
  have h2 : w ^^^ x ^^^ y < 256 := xor_lt_256 h1 hy
  rw [mul13_xor _ _ h2 hz, mul13_xor _ _ h1 hy, mul13_xor _ _ hw hx]

theorem mul14_xor4 (w x y z : ℕ) (hw : w < 256) (hx : x < 256) (hy : y < 256)
    (hz : z < 256) :
    mul14 (w ^^^ x ^^^ y ^^^ z) = mul14 w ^^^ mul14 x ^^^ mul14 y ^^^ mul14 z := by
  have h1 : w ^^^ x < 256 := xor_lt_256 hw hx
  have h2 : w ^^^ x ^^^ y < 256 := xor_lt_256 h1 hy
  rw [mul14_xor _ _ h2 hz, mul14_xor _ _ h1 hy, mul14_xor _ _ hw hx]

theorem xor_regroup (x1 x2 x3 x4 y1 y2 y3 y4 z1 z2 z3 z4 w1 w2 w3 w4 : ℕ) :
    (x1 ^^^ x2 ^^^ x3 ^^^ x4) ^^^ (y1 ^^^ y2 ^^^ y3 ^^^ y4) ^^^
    (z1 ^^^ z2 ^^^ z3 ^^^ z4) ^^^ (w1 ^^^ w2 ^^^ w3 ^^^ w4) =
    (x1 ^^^ y1 ^^^ z1 ^^^ w1) ^^^ ((x2 ^^^ y2 ^^^ z2 ^^^ w2) ^^^
    ((x3 ^^^ y3 ^^^ z3 ^^^ w3) ^^^ (x4 ^^^ y4 ^^^ z4 ^^^ w4))) := by
  simp [Nat.xor_assoc, Nat.xor_comm, xor_left_comm]

theorem gfC1a : ∀ a < 256, mul9 (mul2 a) ^^^ mul14 a ^^^ mul11 a ^^^ mul13 (mul3 a) = 0 := by
  decide

theorem gfC1b : ∀ b < 256, mul9 (mul3 b) ^^^ mul14 (mul2 b) ^^^ mul11 b ^^^ mul13 b = b := by
  decide

theorem gfC1c : ∀ c < 256, mul9 c ^^^ mul14 (mul3 c) ^^^ mul11 (mul2 c) ^^^ mul13 c = 0 := by
  decide

theorem gfC1d : ∀ d < 256, mul9 d ^^^ mul14 d ^^^ mul11 (mul3 d) ^^^ mul13 (mul2 d) = 0 := by
  decide

theorem gfC2a : ∀ a < 256, mul13 (mul2 a) ^^^ mul9 a ^^^ mul14 a ^^^ mul11 (mul3 a) = 0 := by
  decide

theorem gfC2b : ∀ b < 256, mul13 (mul3 b) ^^^ mul9 (mul2 b) ^^^ mul14 b ^^^ mul11 b = 0 := by
  decide

theorem gfC2c : ∀ c < 256, mul13 c ^^^ mul9 (mul3 c) ^^^ mul14 (mul2 c) ^^^ mul11 c = c := by
  decide

theorem gfC2d : ∀ d < 256, mul13 d ^^^ mul9 d ^^^ mul14 (mul3 d) ^^^ mul11 (mul2 d) = 0 := by
  decide

theorem gfC3a : ∀ a < 256, mul11 (mul2 a) ^^^ mul13 a ^^^ mul9 a ^^^ mul14 (mul3 a) = 0 := by
  decide

theorem gfC3b : ∀ b < 256, mul11 (mul3 b) ^^^ mul13 (mul2 b) ^^^ mul9 b ^^^ mul14 b = 0 := by
  decide

theorem gfC3c : ∀ c < 256, mul11 c ^^^ mul13 (mul3 c) ^^^ mul9 (mul2 c) ^^^ mul14 c = 0 := by
  decide

theorem gfC3d : ∀ d < 256, mul11 d ^^^ mul13 d ^^^ mul9 (mul3 d) ^^^ mul14 (mul2 d) = d := by
  decide

theorem invMixCol_mixCol (a b c d : ℕ) (ha : a < 256) (hb : b < 256) (hc : c < 256)
    (hd : d < 256) : invMixCol (mixCol [a, b, c, d]) = [a, b, c, d] := by
  have h2a := mul2_lt a ha
  have h2b := mul2_lt b hb
  have h2c := mul2_lt c hc
  have h2d := mul2_lt d hd
  have h3a := mul3_lt a ha
  have h3b := mul3_lt b hb
  have h3c := mul3_lt c hc
  have h3d := mul3_lt d hd
  rw [mixCol, invMixCol]
  simp only [List.cons.injEq, and_true]
  refine ⟨?_, ?_, ?_, ?_⟩
  · rw [mul14_xor4 _ _ _ _ h2a h3b hc hd, mul11_xor4 _ _ _ _ ha h2b h3c hd,
      mul13_xor4 _ _ _ _ ha hb h2c h3d, mul9_xor4 _ _ _ _ h3a hb hc h2d,
      xor_regroup, gfL1 a ha, gfL2 b hb, gfL3 c hc, gfL4 d hd]
    simp
  · rw [mul9_xor4 _ _ _ _ h2a h3b hc hd, mul14_xor4 _ _ _ _ ha h2b h3c hd,
      mul11_xor4 _ _ _ _ ha hb h2c h3d, mul13_xor4 _ _ _ _ h3a hb hc h2d,
      xor_regroup, gfC1a a ha, gfC1b b hb, gfC1c c hc, gfC1d d hd]
    simp
  · rw [mul13_xor4 _ _ _ _ h2a h3b hc hd, mul9_xor4 _ _ _ _ ha h2b h3c hd,
      mul14_xor4 _ _ _ _ ha hb h2c h3d, mul11_xor4 _ _ _ _ h3a hb hc h2d,
      xor_regroup, gfC2a a ha, gfC2b b hb, gfC2c c hc, gfC2d d hd]
    simp
  · rw [mul11_xor4 _ _ _ _ h2a h3b hc hd, mul13_xor4 _ _ _ _ ha h2b h3c hd,
      mul9_xor4 _ _ _ _ ha hb h2c h3d, mul14_xor4 _ _ _ _ h3a hb hc h2d,
      xor_regroup, gfC3a a ha, gfC3b b hb, gfC3c c hc, gfC3d d hd]
    simp

set_option maxRecDepth 100000

theorem sboxAt_lt : ∀ n < 256, sboxAt n < 256 := by decide

theorem invSboxAt_sboxAt : ∀ n < 256, invSboxAt (sboxAt n) = n := by decide

theorem subBytes_length (s : List ℕ) : (subBytes s).length = s.length := by
  simp [subBytes]

theorem subBytes_lt (s : List ℕ) (h : ∀ b ∈ s, b < 256) : ∀ b ∈ subBytes s, b < 256 := by
  intro b hb
  simp only [subBytes, List.mem_map] at hb
  obtain ⟨a, ha, rfl⟩ := hb
  exact sboxAt_lt a (h a ha)

theorem invSubBytes_subBytes (s : List ℕ) (h : ∀ b ∈ s, b < 256) :
    invSubBytes (subBytes s) = s := by
  induction s with
  | nil => rfl
  | cons a t ih =>
    have ha : a < 256 := h a (by simp)
    have ht : ∀ b ∈ t, b < 256 := fun b hb => h b (by simp [hb])
    show invSboxAt (sboxAt a) :: invSubBytes (subBytes t) = a :: t
    rw [invSboxAt_sboxAt a ha, ih ht]

theorem list_len4 (s : List ℕ) (h : s.length = 4) :
    ∃ a b c d : ℕ, s = [a, b, c, d] := by
  rcases s with _ | ⟨a, s⟩
  · simp at h
  rcases s with _ | ⟨b, s⟩
  · simp at h
  rcases s with _ | ⟨c, s⟩
  · simp at h
  rcases s with _ | ⟨d, s⟩
  · simp at h
  rcases s with _ | ⟨e, s⟩
  · exact ⟨a, b, c, d, rfl⟩
  · simp at h

theorem list_len16 (s : List ℕ) (h : s.length = 16) :
    ∃ a0 a1 a2 a3 a4 a5 a6 a7 a8 a9 a10 a11 a12 a13 a14 a15 : ℕ,
      s = [a0, a1, a2, a3, a4, a5, a6, a7, a8, a9, a10, a11, a12, a13, a14, a15] := by
  rcases s with _ | ⟨a0, s⟩
  · simp at h
  rcases s with _ | ⟨a1, s⟩
  · simp at h
  rcases s with _ | ⟨a2, s⟩
  · simp at h
  rcases s with _ | ⟨a3, s⟩
  · simp at h
  rcases s with _ | ⟨a4, s⟩
  · simp at h
  rcases s with _ | ⟨a5, s⟩
  · simp at h
  rcases s with _ | ⟨a6, s⟩
  · simp at h
  rcases s with _ | ⟨a7, s⟩
  · simp at h
  rcases s with _ | ⟨a8, s⟩
  · simp at h
  rcases s with _ | ⟨a9, s⟩
  · simp at h
  rcases s with _ | ⟨a10, s⟩
  · simp at h
  rcases s with _ | ⟨a11, s⟩
  · simp at h
  rcases s with _ | ⟨a12, s⟩
  · simp at h
  rcases s with _ | ⟨a13, s⟩
  · simp at h
  rcases s with _ | ⟨a14, s⟩
  · simp at h
  rcases s with _ | ⟨a15, s⟩
  · simp at h
  rcases s with _ | ⟨a16, s⟩
  · exact ⟨a0, a1, a2, a3, a4, a5, a6, a7, a8, a9, a10, a11, a12, a13, a14, a15, rfl⟩
  · simp at h

theorem shiftRows_length (s : List ℕ) : (shiftRows s).length = 16 := by
  simp [shiftRows, shiftRowsIdx]

theorem shiftRows_lt (s : List ℕ) (h : ∀ b ∈ s, b < 256) :
    ∀ b ∈ shiftRows s, b < 256 := by
  intro b hb
  simp only [shiftRows, List.mem_map] at hb
  obtain ⟨i, _, rfl⟩ := hb
  exact getD_lt_of_all s i 0 h (by norm_num)

theorem invShiftRows_shiftRows (s : List ℕ) (h : s.length = 16) :
    invShiftRows (shiftRows s) = s := by
  obtain ⟨a0, a1, a2, a3, a4, a5, a6, a7, a8, a9, a10, a11, a12, a13, a14, a15, rfl⟩ :=
    list_len16 s h
  rfl

theorem xorBytes_length (a b : List ℕ) : (xorBytes a b).length = min a.length b.length := by
  simp [xorBytes]

theorem xorBytes_lt (a : List ℕ) : ∀ b : List ℕ, (∀ x ∈ a, x < 256) →
    (∀ x ∈ b, x < 256) → ∀ x ∈ xorBytes a b, x < 256 := by
  induction a with
  | nil => intro b _ _ x hx; simp [xorBytes] at hx
  | cons p a ih =>
    intro b ha hb x hx
    cases b with
    | nil => simp [xorBytes] at hx
    | cons q b =>
      simp only [xorBytes, List.zipWith_cons_cons, List.mem_cons] at hx
      rcases hx with rfl | hx
      · exact xor_lt_256 (ha p (by simp)) (hb q (by simp))
      · exact ih b (fun y hy => ha y (by simp [hy])) (fun y hy => hb y (by simp [hy])) x hx

theorem xorBytes_cancel_right (x : List ℕ) : ∀ k : List ℕ, x.length = k.length →
    xorBytes (xorBytes x k) k = x := by
  induction x with
  | nil => intro k _; rfl
  | cons a x ih =>
    intro k h
    cases k with
    | nil => simp at h
    | cons b k =>
      have h1 : (a ^^^ b) ^^^ b = a := by rw [Nat.xor_assoc, Nat.xor_self, Nat.xor_zero]
      have h2 := ih k (by simpa using h)
      simp only [xorBytes] at h2 ⊢
      simp [h1, h2]

theorem xorBytes_cancel_left (p : List ℕ) : ∀ b : List ℕ, p.length = b.length →
    xorBytes p (xorBytes p b) = b := by
  induction p with
  | nil =>
    intro b h
    cases b with
    | nil => rfl
    | cons q b => simp at h
  | cons a p ih =>
    intro b h
    cases b with
    | nil => simp at h
    | cons q b =>
      have h1 : a ^^^ (a ^^^ q) = q := by rw [← Nat.xor_assoc, Nat.xor_self, Nat.zero_xor]
      have h2 := ih b (by simpa using h)
      simp only [xorBytes] at h2 ⊢
      simp [h1, h2]

theorem mixCol_lt (a b c d : ℕ) (ha : a < 256) (hb : b < 256) (hc : c < 256)
    (hd : d < 256) : ∀ x ∈ mixCol [a, b, c, d], x < 256 := by
  have h2a := mul2_lt a ha
  have h2b := mul2_lt b hb
  have h2c := mul2_lt c hc
  have h2d := mul2_lt d hd
  have h3a := mul3_lt a ha
  have h3b := mul3_lt b hb
  have h3c := mul3_lt c hc
  have h3d := mul3_lt d hd
  intro x hx
  simp only [mixCol, List.mem_cons, List.not_mem_nil, or_false] at hx
  rcases hx with rfl | rfl | rfl | rfl
  · exact xor_lt_256 (xor_lt_256 (xor_lt_256 h2a h3b) hc) hd
  · exact xor_lt_256 (xor_lt_256 (xor_lt_256 ha h2b) h3c) hd
  · exact xor_lt_256 (xor_lt_256 (xor_lt_256 ha hb) h2c) h3d
  · exact xor_lt_256 (xor_lt_256 (xor_lt_256 h3a hb) hc) h2d

theorem mixColumns_length (s : List ℕ) (h16 : s.length = 16) :
    (mixColumns s).length = 16 := by
  obtain ⟨a0, a1, a2, a3, a4, a5, a6, a7, a8, a9, a10, a11, a12, a13, a14, a15, rfl⟩ :=
    list_len16 s h16
  rfl

theorem mixColumns_lt (s : List ℕ) (h16 : s.length = 16) (hb : ∀ b ∈ s, b < 256) :
    ∀ b ∈ mixColumns s, b < 256 := by
  obtain ⟨a0, a1, a2, a3, a4, a5, a6, a7, a8, a9, a10, a11, a12, a13, a14, a15, rfl⟩ :=
    list_len16 s h16
  intro x hx
  have hx2 : x ∈ mixCol [a0, a1, a2, a3] ++ (mixCol [a4, a5, a6, a7] ++
      (mixCol [a8, a9, a10, a11] ++ (mixCol [a12, a13, a14, a15] ++ []))) := hx
  simp only [List.mem_append, List.not_mem_nil, or_false] at hx2
  rcases hx2 with h | h | h | h
  · exact mixCol_lt a0 a1 a2 a3 (hb _ (by simp)) (hb _ (by simp)) (hb _ (by simp))
      (hb _ (by simp)) x h
  · exact mixCol_lt a4 a5 a6 a7 (hb _ (by simp)) (hb _ (by simp)) (hb _ (by simp))
      (hb _ (by simp)) x h
  · exact mixCol_lt a8 a9 a10 a11 (hb _ (by simp)) (hb _ (by simp)) (hb _ (by simp))
      (hb _ (by simp)) x h
  · exact mixCol_lt a12 a13 a14 a15 (hb _ (by simp)) (hb _ (by simp)) (hb _ (by simp))
      (hb _ (by simp)) x h

theorem invMixColumns_mixColumns (s : List ℕ) (h16 : s.length = 16)
    (hb : ∀ b ∈ s, b < 256) : invMixColumns (mixColumns s) = s := by
  obtain ⟨a0, a1, a2, a3, a4, a5, a6, a7, a8, a9, a10, a11, a12, a13, a14, a15, rfl⟩ :=
    list_len16 s h16
  show invMixCol (mixCol [a0, a1, a2, a3]) ++ (invMixCol (mixCol [a4, a5, a6, a7]) ++
      (invMixCol (mixCol [a8, a9, a10, a11]) ++ (invMixCol (mixCol [a12, a13, a14, a15]) ++ []))) =
    [a0, a1, a2, a3, a4, a5, a6, a7, a8, a9, a10, a11, a12, a13, a14, a15]
  rw [invMixCol_mixCol a0 a1 a2 a3 (hb _ (by simp)) (hb _ (by simp)) (hb _ (by simp))
      (hb _ (by simp)),
    invMixCol_mixCol a4 a5 a6 a7 (hb _ (by simp)) (hb _ (by simp)) (hb _ (by simp))
      (hb _ (by simp)),
    invMixCol_mixCol a8 a9 a10 a11 (hb _ (by simp)) (hb _ (by simp)) (hb _ (by simp))
      (hb _ (by simp)),
    invMixCol_mixCol a12 a13 a14 a15 (hb _ (by simp)) (hb _ (by simp)) (hb _ (by simp))
      (hb _ (by simp))]
  rfl

theorem encryptRounds_good (keys : List (List ℕ)) : ∀ s : List ℕ,
    (∀ k ∈ keys, k.length = 16 ∧ ∀ b ∈ k, b < 256) →
    s.length = 16 → (∀ b ∈ s, b < 256) →
    (encryptRounds keys s).length = 16 ∧ ∀ b ∈ encryptRounds keys s, b < 256 := by
  induction keys with
  | nil => intro s _ h16 hb; exact ⟨h16, hb⟩
  | cons k rest ih =>
    intro s hk h16 hb
    have hk1 := hk k (by simp)
    cases rest with
    | nil =>
      constructor
      · show (xorBytes (shiftRows (subBytes s)) k).length = 16
        simp [xorBytes_length, shiftRows_length, hk1.1]
      · show ∀ b ∈ xorBytes (shiftRows (subBytes s)) k, b < 256
        exact xorBytes_lt _ k (shiftRows_lt _ (subBytes_lt s hb)) hk1.2
    | cons k2 rest2 =>
      have hmL : (mixColumns (shiftRows (subBytes s))).length = 16 :=
        mixColumns_length _ (shiftRows_length _)
      have hmB := mixColumns_lt _ (shiftRows_length _) (shiftRows_lt _ (subBytes_lt s hb))
      have htL : (xorBytes (mixColumns (shiftRows (subBytes s))) k).length = 16 := by
        simp [xorBytes_length, hmL, hk1.1]
      have htB := xorBytes_lt _ k hmB hk1.2
      exact ih (xorBytes (mixColumns (shiftRows (subBytes s))) k)
        (fun k' hk' => hk k' (by simp [hk'])) htL htB

theorem decryptRounds_encryptRounds (keys : List (List ℕ)) : ∀ s : List ℕ,
    (∀ k ∈ keys, k.length = 16 ∧ ∀ b ∈ k, b < 256) →
    s.length = 16 → (∀ b ∈ s, b < 256) →
    decryptRounds keys (encryptRounds keys s) = s := by
  induction keys with
  | nil => intro s _ _ _; rfl
  | cons k rest ih =>
    intro s hk h16 hb
    have hk1 := hk k (by simp)
    cases rest with
    | nil =>
      show invSubBytes (invShiftRows (xorBytes (xorBytes (shiftRows (subBytes s)) k) k)) = s
      rw [xorBytes_cancel_right _ k (by rw [shiftRows_length, hk1.1]),
        invShiftRows_shiftRows _ ((subBytes_length s).trans h16)]
      exact invSubBytes_subBytes s hb
    | cons k2 rest2 =>
      have hmL : (mixColumns (shiftRows (subBytes s))).length = 16 :=
        mixColumns_length _ (shiftRows_length _)
      have hmB := mixColumns_lt _ (shiftRows_length _) (shiftRows_lt _ (subBytes_lt s hb))
      have htL : (xorBytes (mixColumns (shiftRows (subBytes s))) k).length = 16 := by
        simp [xorBytes_length, hmL, hk1.1]
      have htB := xorBytes_lt _ k hmB hk1.2
      show invSubBytes (invShiftRows (invMixColumns (xorBytes (decryptRounds (k2 :: rest2)
        (encryptRounds (k2 :: rest2) (xorBytes (mixColumns (shiftRows (subBytes s))) k))) k))) = s
      rw [ih (xorBytes (mixColumns (shiftRows (subBytes s))) k)
          (fun k' hk' => hk k' (by simp [hk'])) htL htB,
        xorBytes_cancel_right _ k (by rw [hmL, hk1.1]),
        invMixColumns_mixColumns _ (shiftRows_length _)
          (shiftRows_lt _ (subBytes_lt s hb)),
        invShiftRows_shiftRows _ ((subBytes_length s).trans h16)]
      exact invSubBytes_subBytes s hb

theorem decryptBlock_encryptBlock (keys : List (List ℕ)) (b : List ℕ)
    (hk : ∀ k ∈ keys, k.length = 16 ∧ ∀ x ∈ k, x < 256)
    (h16 : b.length = 16) (hb : ∀ x ∈ b, x < 256) :
    decryptBlock keys (encryptBlock keys b) = b := by
  cases keys with
  | nil => rfl
  | cons k0 rest =>
    have hk0 := hk k0 (by simp)
    show xorBytes (decryptRounds rest (encryptRounds rest (xorBytes b k0))) k0 = b
    rw [decryptRounds_encryptRounds rest (xorBytes b k0)
        (fun k h => hk k (by simp [h]))
        (by simp [xorBytes_length, h16, hk0.1])
        (xorBytes_lt b k0 hb hk0.2)]
    exact xorBytes_cancel_right b k0 (h16.trans hk0.1.symm)

theorem encryptBlock_good (keys : List (List ℕ)) (b : List ℕ)
    (hk : ∀ k ∈ keys, k.length = 16 ∧ ∀ x ∈ k, x < 256)
    (h16 : b.length = 16) (hb : ∀ x ∈ b, x < 256) :
    (encryptBlock keys b).length = 16 ∧ ∀ x ∈ encryptBlock keys b, x < 256 := by
  cases keys with
  | nil => exact ⟨h16, hb⟩
  | cons k0 rest =>
    have hk0 := hk k0 (by simp)
    exact encryptRounds_good rest (xorBytes b k0) (fun k h => hk k (by simp [h]))
      (by simp [xorBytes_length, h16, hk0.1]) (xorBytes_lt b k0 hb hk0.2)

theorem cbcEncryptBlocks_good (keys : List (List ℕ))
    (hk : ∀ k ∈ keys, k.length = 16 ∧ ∀ x ∈ k, x < 256) :
    ∀ (bs : List (List ℕ)) (prev : List ℕ), prev.length = 16 → (∀ x ∈ prev, x < 256) →
    (∀ b ∈ bs, b.length = 16 ∧ ∀ x ∈ b, x < 256) →
    ∀ c ∈ cbcEncryptBlocks keys prev bs, c.length = 16 ∧ ∀ x ∈ c, x < 256 := by
  intro bs
  induction bs with
  | nil => intro prev _ _ _ c hc; simp [cbcEncryptBlocks] at hc
  | cons b bs ih =>
    intro prev hpL hpB hbs c hc
    have hb1 := hbs b (by simp)
    have hcgood := encryptBlock_good keys (xorBytes prev b) hk
      (by simp [xorBytes_length, hpL, hb1.1]) (xorBytes_lt prev b hpB hb1.2)
    simp only [cbcEncryptBlocks, List.mem_cons] at hc
    rcases hc with rfl | hc
    · exact hcgood
    · exact ih (encryptBlock keys (xorBytes prev b)) hcgood.1 hcgood.2
        (fun b' h => hbs b' (by simp [h])) c hc

theorem cbcEncryptBlocks_length (keys : List (List ℕ)) :
    ∀ (bs : List (List ℕ)) (prev : List ℕ),
    (cbcEncryptBlocks keys prev bs).length = bs.length := by
  intro bs
  induction bs with
  | nil => intro prev; rfl
  | cons b bs ih => intro prev; simp [cbcEncryptBlocks, ih]

theorem cbcDecryptBlocks_cbcEncryptBlocks (keys : List (List ℕ))
    (hk : ∀ k ∈ keys, k.length = 16 ∧ ∀ x ∈ k, x < 256) :
    ∀ (bs : List (List ℕ)) (prev : List ℕ), prev.length = 16 → (∀ x ∈ prev, x < 256) →
    (∀ b ∈ bs, b.length = 16 ∧ ∀ x ∈ b, x < 256) →
    cbcDecryptBlocks keys prev (cbcEncryptBlocks keys prev bs) = bs := by
  intro bs
  induction bs with
  | nil => intro prev _ _ _; rfl
  | cons b bs ih =>
    intro prev hpL hpB hbs
    have hb1 := hbs b (by simp)
    have hxL : (xorBytes prev b).length = 16 := by simp [xorBytes_length, hpL, hb1.1]
    have hxB := xorBytes_lt prev b hpB hb1.2
    have hcgood := encryptBlock_good keys (xorBytes prev b) hk hxL hxB
    show xorBytes prev (decryptBlock keys (encryptBlock keys (xorBytes prev b))) ::
        cbcDecryptBlocks keys (encryptBlock keys (xorBytes prev b))
          (cbcEncryptBlocks keys (encryptBlock keys (xorBytes prev b)) bs) = b :: bs
    rw [decryptBlock_encryptBlock keys (xorBytes prev b) hk hxL hxB,
      xorBytes_cancel_left prev b (hpL.trans hb1.1.symm),
      ih (encryptBlock keys (xorBytes prev b)) hcgood.1 hcgood.2
        (fun b' h => hbs b' (by simp [h]))]

theorem getD_words_good (w : List (List ℕ)) (j : ℕ) (hj : j < w.length)
    (hw : ∀ u ∈ w, u.length = 4 ∧ ∀ b ∈ u, b < 256) :
    (w.getD j []).length = 4 ∧ ∀ b ∈ w.getD j [], b < 256 := by
  have hmem : w.getD j [] ∈ w := by
    rw [List.getD_eq_getElem?_getD, List.getElem?_eq_getElem hj]
    exact List.getElem_mem hj
  exact hw _ hmem

theorem rotWord_good (t : List ℕ) (h4 : t.length = 4) (hx : ∀ x ∈ t, x < 256) :
    (rotWord t).length = 4 ∧ ∀ x ∈ rotWord t, x < 256 := by
  obtain ⟨a, b, c, d, rfl⟩ := list_len4 t h4
  refine ⟨rfl, ?_⟩
  intro x hxx
  have hxx2 : x ∈ [b, c, d, a] := hxx
  simp only [List.mem_cons, List.not_mem_nil, or_false] at hxx2
  rcases hxx2 with rfl | rfl | rfl | rfl
  all_goals exact hx _ (by simp)

theorem subWord_good (t : List ℕ) (h4 : t.length = 4) (hx : ∀ x ∈ t, x < 256) :
    (subWord t).length = 4 ∧ ∀ x ∈ subWord t, x < 256 := by
  constructor
  · simp [subWord, h4]
  · intro x hxx
    simp only [subWord, List.mem_map] at hxx
    obtain ⟨y, hy, rfl⟩ := hxx
    exact sboxAt_lt y (hx y hy)

theorem xorWord_good (u v : List ℕ) (hu4 : u.length = 4) (hv4 : v.length = 4)
    (hu : ∀ x ∈ u, x < 256) (hv : ∀ x ∈ v, x < 256) :
    (xorWord u v).length = 4 ∧ ∀ x ∈ xorWord u v, x < 256 := by
  constructor
  · simp [xorWord, hu4, hv4]
  · exact xorBytes_lt u v hu hv

theorem nextWord_good (w : List (List ℕ)) (h8 : 8 ≤ w.length)
    (hw : ∀ u ∈ w, u.length = 4 ∧ ∀ b ∈ u, b < 256) :
    (nextWord w).length = 4 ∧ ∀ b ∈ nextWord w, b < 256 := by
  have hprev := getD_words_good w (w.length - 1) (by omega) hw
  have hm8 := getD_words_good w (w.length - 8) (by omega) hw
  have hrcon : ([rconList.getD (w.length / 8) 0, 0, 0, 0] : List ℕ).length = 4 ∧
      ∀ x ∈ ([rconList.getD (w.length / 8) 0, 0, 0, 0] : List ℕ), x < 256 := by
    refine ⟨rfl, ?_⟩
    intro x hx
    simp only [List.mem_cons, List.not_mem_nil, or_false] at hx
    have hr : rconList.getD (w.length / 8) 0 < 256 :=
      getD_lt_of_all rconList _ 0 (by decide) (by norm_num)
    rcases hx with rfl | rfl | rfl | rfl
    · exact hr
    all_goals norm_num
  have hrot := rotWord_good _ hprev.1 hprev.2
  have hsub := subWord_good _ hrot.1 hrot.2
  have hsub2 := subWord_good _ hprev.1 hprev.2
  have hx1 := xorWord_good _ _ hsub.1 hrcon.1 hsub.2 hrcon.2
  simp only [nextWord]
  split_ifs with h1 h2
  · exact xorWord_good _ _ hm8.1 hx1.1 hm8.2 hx1.2
  · exact xorWord_good _ _ hm8.1 hsub2.1 hm8.2 hsub2.2
  · exact xorWord_good _ _ hm8.1 hprev.1 hm8.2 hprev.2

theorem expandAux_good (n : ℕ) : ∀ w : List (List ℕ), 8 ≤ w.length →
    (∀ u ∈ w, u.length = 4 ∧ ∀ b ∈ u, b < 256) →
    8 ≤ (expandAux n w).length ∧
      ∀ u ∈ expandAux n w, u.length = 4 ∧ ∀ b ∈ u, b < 256 := by
  induction n with
  | zero => intro w h8 hw; exact ⟨h8, hw⟩
  | succ n ih =>
    intro w h8 hw
    have hnw := nextWord_good w h8 hw
    rw [expandAux]
    apply ih
    · simp
      omega
    · intro u hu
      simp only [List.mem_append, List.mem_singleton] at hu
      rcases hu with hu | rfl
      · exact hw u hu
      · exact hnw

theorem initWords_good (key : List ℕ) (h32 : key.length = 32) (hb : ∀ b ∈ key, b < 256) :
    8 ≤ (initWords key).length ∧
      ∀ u ∈ initWords key, u.length = 4 ∧ ∀ b ∈ u, b < 256 := by
  constructor
  · simp [initWords]
  · intro u hu
    simp only [initWords, List.mem_cons, List.not_mem_nil, or_false] at hu
    have hlen : ∀ k : ℕ, k + 4 ≤ 32 → ((key.drop k).take 4).length = 4 := by
      intro k hk
      simp [List.length_take, List.length_drop, h32]
      omega
    have hmem : ∀ (k : ℕ) (x : ℕ), x ∈ (key.drop k).take 4 → x < 256 := by
      intro k x hx
      exact hb x (List.mem_of_mem_drop (List.mem_of_mem_take hx))
    rcases hu with rfl | rfl | rfl | rfl | rfl | rfl | rfl | rfl
    · constructor
      · simp [List.length_take, h32]
      · intro x hx
        exact hb x (List.mem_of_mem_take hx)
    all_goals exact ⟨hlen _ (by norm_num), fun x hx => hmem _ x hx⟩

theorem wordsToKeys_good (N : ℕ) : ∀ w : List (List ℕ), w.length ≤ N →
    (∀ u ∈ w, u.length = 4 ∧ ∀ b ∈ u, b < 256) →
    ∀ k ∈ wordsToKeys w, k.length = 16 ∧ ∀ b ∈ k, b < 256 := by
  induction N with
  | zero =>
    intro w hlen hw k hk
    rcases w with _ | ⟨w0, w⟩
    · simp [wordsToKeys] at hk
    · simp at hlen
  | succ N ih =>
    intro w hlen hw k hk
    rcases w with _ | ⟨w0, w⟩
    · simp [wordsToKeys] at hk
    rcases w with _ | ⟨w1, w⟩
    · have hk2 : k ∈ ([] : List (List ℕ)) := hk
      simp at hk2
    rcases w with _ | ⟨w2, w⟩
    · have hk2 : k ∈ ([] : List (List ℕ)) := hk
      simp at hk2
    rcases w with _ | ⟨w3, rest⟩
    · have hk2 : k ∈ ([] : List (List ℕ)) := hk
      simp at hk2
    have hk2 : k ∈ (w0 ++ w1 ++ w2 ++ w3) :: wordsToKeys rest := hk
    simp only [List.mem_cons] at hk2
    rcases hk2 with rfl | hk2
    · have h0 := hw w0 (by simp)
      have h1 := hw w1 (by simp)
      have h2 := hw w2 (by simp)
      have h3 := hw w3 (by simp)
      constructor
      · simp [List.length_append, h0.1, h1.1, h2.1, h3.1]
      · intro b hb
        simp only [List.mem_append] at hb
        rcases hb with ((hb | hb) | hb) | hb
        · exact h0.2 b hb
        · exact h1.2 b hb
        · exact h2.2 b hb
        · exact h3.2 b hb
    · exact ih rest (by simp at hlen; omega) (fun u hu => hw u (by simp [hu])) k hk2

theorem roundKeysOf_good (key : List ℕ) (h32 : key.length = 32)
    (hb : ∀ b ∈ key, b < 256) :
    ∀ k ∈ roundKeysOf key, k.length = 16 ∧ ∀ b ∈ k, b < 256 := by
  have hi := initWords_good key h32 hb
  have he := expandAux_good 52 (initWords key) hi.1 hi.2
  exact wordsToKeys_good (keyWords key).length (keyWords key) le_rfl he.2

theorem toBlocks_append16 (b rest : List ℕ) (h : b.length = 16) :
    toBlocks (b ++ rest) = b :: toBlocks rest := by
  obtain ⟨a0, a1, a2, a3, a4, a5, a6, a7, a8, a9, a10, a11, a12, a13, a14, a15, rfl⟩ :=
    list_len16 b h
  rfl

theorem toBlocks_concatBlocks (blks : List (List ℕ)) (h : ∀ b ∈ blks, b.length = 16) :
    toBlocks (concatBlocks blks) = blks := by
  induction blks with
  | nil => rfl
  | cons b rest ih =>
    show toBlocks (b ++ concatBlocks rest) = b :: rest
    rw [toBlocks_append16 b _ (h b (by simp)), ih (fun b' hb => h b' (by simp [hb]))]

theorem concatBlocks_toBlocks (N : ℕ) : ∀ bs : List ℕ, bs.length ≤ N →
    concatBlocks (toBlocks bs) = bs := by
  induction N with
  | zero =>
    intro bs hlen
    rcases bs with _ | ⟨a, bs⟩
    · rfl
    · simp at hlen
  | succ N ih =>
    intro bs hlen
    rcases bs with _ | ⟨a1, bs⟩
    · rfl
    rcases bs with _ | ⟨a2, bs⟩
    · rfl
    rcases bs with _ | ⟨a3, bs⟩
    · rfl
    rcases bs with _ | ⟨a4, bs⟩
    · rfl
    rcases bs with _ | ⟨a5, bs⟩
    · rfl
    rcases bs with _ | ⟨a6, bs⟩
    · rfl
    rcases bs with _ | ⟨a7, bs⟩
    · rfl
    rcases bs with _ | ⟨a8, bs⟩
    · rfl
    rcases bs with _ | ⟨a9, bs⟩
    · rfl
    rcases bs with _ | ⟨a10, bs⟩
    · rfl
    rcases bs with _ | ⟨a11, bs⟩
    · rfl
    rcases bs with _ | ⟨a12, bs⟩
    · rfl
    rcases bs with _ | ⟨a13, bs⟩
    · rfl
    rcases bs with _ | ⟨a14, bs⟩
    · rfl
    rcases bs with _ | ⟨a15, bs⟩
    · rfl
    rcases bs with _ | ⟨a16, rest⟩
    · rfl
    show [a1, a2, a3, a4, a5, a6, a7, a8, a9, a10, a11, a12, a13, a14, a15, a16] ++
        concatBlocks (toBlocks rest) =
      a1 :: a2 :: a3 :: a4 :: a5 :: a6 :: a7 :: a8 :: a9 :: a10 :: a11 :: a12 :: a13 ::
        a14 :: a15 :: a16 :: rest
    rw [ih rest (by simp at hlen; omega)]
    rfl

theorem toBlocks_good (N : ℕ) : ∀ bs : List ℕ, bs.length ≤ N → bs.length % 16 = 0 →
    (∀ x ∈ bs, x < 256) →
    ∀ blk ∈ toBlocks bs, blk.length = 16 ∧ ∀ x ∈ blk, x < 256 := by
  induction N with
  | zero =>
    intro bs hlen hmod hb blk hblk
    rcases bs with _ | ⟨a, bs⟩
    · simp [toBlocks] at hblk
    · simp at hlen
  | succ N ih =>
    intro bs hlen hmod hb blk hblk
    rcases bs with _ | ⟨a1, bs⟩
    · simp [toBlocks] at hblk
    rcases bs with _ | ⟨a2, bs⟩
    · simp at hmod
    rcases bs with _ | ⟨a3, bs⟩
    · simp at hmod
    rcases bs with _ | ⟨a4, bs⟩
    · simp at hmod
    rcases bs with _ | ⟨a5, bs⟩
    · simp at hmod
    rcases bs with _ | ⟨a6, bs⟩
    · simp at hmod
    rcases bs with _ | ⟨a7, bs⟩
    · simp at hmod
    rcases bs with _ | ⟨a8, bs⟩
    · simp at hmod
    rcases bs with _ | ⟨a9, bs⟩
    · simp at hmod
    rcases bs with _ | ⟨a10, bs⟩
    · simp at hmod
    rcases bs with _ | ⟨a11, bs⟩
    · simp at hmod
    rcases bs with _ | ⟨a12, bs⟩
    · simp at hmod
    rcases bs with _ | ⟨a13, bs⟩
    · simp at hmod
    rcases bs with _ | ⟨a14, bs⟩
    · simp at hmod
    rcases bs with _ | ⟨a15, bs⟩
    · simp at hmod
    rcases bs with _ | ⟨a16, rest⟩
    · simp at hmod
    have hblk2 : blk ∈ [a1, a2, a3, a4, a5, a6, a7, a8, a9, a10, a11, a12, a13, a14,
        a15, a16] :: toBlocks rest := hblk
    simp only [List.mem_cons] at hblk2
    rcases hblk2 with rfl | hblk2
    · refine ⟨rfl, ?_⟩
      intro x hx
      simp only [List.mem_cons, List.not_mem_nil, or_false] at hx
      rcases hx with rfl | rfl | rfl | rfl | rfl | rfl | rfl | rfl | rfl | rfl | rfl |
        rfl | rfl | rfl | rfl | rfl
      all_goals exact hb _ (by simp)
    · exact ih rest (by simp at hlen; omega) (by simp at hmod; omega)
        (fun x hx => hb x (by simp [hx])) blk hblk2

theorem pkcs7pad_mod (bs : List ℕ) : (pkcs7pad bs).length % 16 = 0 := by
  simp [pkcs7pad]
  omega

theorem pkcs7pad_lt (bs : List ℕ) (hb : ∀ x ∈ bs, x < 256) :
    ∀ x ∈ pkcs7pad bs, x < 256 := by
  intro x hx
  simp only [pkcs7pad, List.mem_append, List.mem_replicate] at hx
  rcases hx with hx | hx
  · exact hb x hx
  · omega

theorem pkcs7pad_length_pos (bs : List ℕ) : 0 < (pkcs7pad bs).length := by
  simp [pkcs7pad]
  omega

theorem toBlocks_ne_nil (bs : List ℕ) (h : 0 < bs.length) : toBlocks bs ≠ [] := by
  intro hnil
  have h2 := concatBlocks_toBlocks bs.length bs le_rfl
  rw [hnil] at h2
  rw [← h2] at h
  simp [concatBlocks] at h

theorem concatBlocks_length16 (blks : List (List ℕ)) (h : ∀ b ∈ blks, b.length = 16) :
    (concatBlocks blks).length = 16 * blks.length := by
  induction blks with
  | nil => rfl
  | cons b rest ih =>
    show (b ++ concatBlocks rest).length = 16 * (rest.length + 1)
    rw [List.length_append, h b (by simp), ih (fun x hx => h x (by simp [hx]))]
    ring

theorem concatBlocks_lt (blks : List (List ℕ)) (h : ∀ b ∈ blks, ∀ x ∈ b, x < 256) :
    ∀ x ∈ concatBlocks blks, x < 256 := by
  induction blks with
  | nil => intro x hx; simp [concatBlocks] at hx
  | cons b rest ih =>
    intro x hx
    have hx2 : x ∈ b ++ concatBlocks rest := hx
    simp only [List.mem_append] at hx2
    rcases hx2 with hx2 | hx2
    · exact h b (by simp) x hx2
    · exact ih (fun b' hb => h b' (by simp [hb])) x hx2

theorem bytesToHex_not_empty (bs : List ℕ) (h : bs ≠ []) :
    (bytesToHex bs).isEmpty = false := by
  have hlen := bytesToHex_length bs
  cases hbt : bytesToHex bs with
  | nil =>
    rw [hbt] at hlen
    simp at hlen
    exact absurd hlen h
  | cons a t => rfl

theorem decrypt_of_encrypt_bytes (key iv ptBytes : List ℕ)
    (hk32 : key.length = 32) (hkb : ∀ b ∈ key, b < 256)
    (hiv : iv.length = 16) (hivb : ∀ b ∈ iv, b < 256)
    (hpt : ∀ x ∈ ptBytes, x < 256) :
    decrypt key (String.mk (bytesToHex iv ++ ':' :: bytesToHex
        (concatBlocks (cbcEncryptBlocks (roundKeysOf key) iv
          (toBlocks (pkcs7pad ptBytes)))))) =
      .ok (some (String.mk (utf8Decode ptBytes))) := by
  have hkeys := roundKeysOf_good key hk32 hkb
  have hpadmod := pkcs7pad_mod ptBytes
  have hpadlt := pkcs7pad_lt ptBytes hpt
  have hblocks := toBlocks_good (pkcs7pad ptBytes).length (pkcs7pad ptBytes) le_rfl
    hpadmod hpadlt
  have hencB := cbcEncryptBlocks_good (roundKeysOf key) hkeys
    (toBlocks (pkcs7pad ptBytes)) iv hiv hivb hblocks
  have hctlt : ∀ x ∈ concatBlocks (cbcEncryptBlocks (roundKeysOf key) iv
      (toBlocks (pkcs7pad ptBytes))), x < 256 :=
    concatBlocks_lt _ (fun b hb => (hencB b hb).2)
  have hctlen : (concatBlocks (cbcEncryptBlocks (roundKeysOf key) iv
      (toBlocks (pkcs7pad ptBytes)))).length =
      16 * (cbcEncryptBlocks (roundKeysOf key) iv (toBlocks (pkcs7pad ptBytes))).length :=
    concatBlocks_length16 _ (fun b hb => (hencB b hb).1)
  have hnblocks : (cbcEncryptBlocks (roundKeysOf key) iv
      (toBlocks (pkcs7pad ptBytes))).length = (toBlocks (pkcs7pad ptBytes)).length :=
    cbcEncryptBlocks_length _ _ iv
  have hblkne : toBlocks (pkcs7pad ptBytes) ≠ [] :=
    toBlocks_ne_nil _ (pkcs7pad_length_pos ptBytes)
  have hctpos : (concatBlocks (cbcEncryptBlocks (roundKeysOf key) iv
      (toBlocks (pkcs7pad ptBytes)))).length ≠ 0 := by
    rw [hctlen, hnblocks]
    have := List.length_pos.mpr hblkne
    omega
  have hctmod : (concatBlocks (cbcEncryptBlocks (roundKeysOf key) iv
      (toBlocks (pkcs7pad ptBytes)))).length % 16 = 0 := by
    rw [hctlen]
    omega
  have hivne : iv ≠ [] := by
    intro h
    rw [h] at hiv
    simp at hiv
  have hctne : concatBlocks (cbcEncryptBlocks (roundKeysOf key) iv
      (toBlocks (pkcs7pad ptBytes))) ≠ [] := by
    intro h
    rw [h] at hctpos
    simp [concatBlocks] at hctpos
  have hne : String.mk (bytesToHex iv ++ ':' :: bytesToHex
      (concatBlocks (cbcEncryptBlocks (roundKeysOf key) iv
        (toBlocks (pkcs7pad ptBytes))))) ≠ "" := by
    intro h
    have h2 : (bytesToHex iv ++ ':' :: bytesToHex
        (concatBlocks (cbcEncryptBlocks (roundKeysOf key) iv
          (toBlocks (pkcs7pad ptBytes))))) = ([] : List Char) := congrArg String.data h
    simp at h2
  have hsplit : splitColon (String.mk (bytesToHex iv ++ ':' :: bytesToHex
      (concatBlocks (cbcEncryptBlocks (roundKeysOf key) iv
        (toBlocks (pkcs7pad ptBytes)))))).data
      = [bytesToHex iv, bytesToHex (concatBlocks (cbcEncryptBlocks (roundKeysOf key) iv
          (toBlocks (pkcs7pad ptBytes))))] :=
    splitColon_two _ _ (bytesToHex_colon_free iv hivb) (bytesToHex_colon_free _ hctlt)
  rw [decrypt, if_neg hne, hsplit]
  simp only [List.getD_cons_zero, List.getD_cons_succ]
  have hc1 : ¬((bytesToHex iv).isEmpty = true ∨
      (bytesToHex (concatBlocks (cbcEncryptBlocks (roundKeysOf key) iv
        (toBlocks (pkcs7pad ptBytes))))).isEmpty = true) := by
    rw [bytesToHex_not_empty iv hivne, bytesToHex_not_empty _ hctne]
    simp
  rw [if_neg hc1, hexToBytes_bytesToHex iv hivb, hexToBytes_bytesToHex _ hctlt]
  have hc2 : ¬(iv.length ≠ 16 ∨ (concatBlocks (cbcEncryptBlocks (roundKeysOf key) iv
      (toBlocks (pkcs7pad ptBytes)))).length % 16 ≠ 0 ∨
      (concatBlocks (cbcEncryptBlocks (roundKeysOf key) iv
        (toBlocks (pkcs7pad ptBytes)))).length = 0) := by
    push_neg
    exact ⟨hiv, hctmod, hctpos⟩
  rw [if_neg hc2, toBlocks_concatBlocks _ (fun b hb => (hencB b hb).1),
    cbcDecryptBlocks_cbcEncryptBlocks (roundKeysOf key) hkeys _ iv hiv hivb hblocks,
    concatBlocks_toBlocks (pkcs7pad ptBytes).length (pkcs7pad ptBytes) le_rfl,
    pkcs7unpad_pkcs7pad]

/-- C8 counterexample: the empty string does not round-trip, since encrypt
returns null on any falsy input including the empty string; and corruption
is not always detected: encrypt of hello under the byte 0..31 key and the
all-zero IV yields the stored value 000...0:9168..., and altering one hex
character of its IV half (the leading 0 to 1) makes decrypt succeed with
the wrong plaintext xello instead of failing with a decryption error. -/
theorem encryption_roundTrip_cex :
    encrypt exKey exIV "" = none ∧
    encrypt exKey exIV "hello" =
      some "00000000000000000000000000000000:91684487c34c3456eb4e901cef884a1e" ∧
    decrypt exKey "10000000000000000000000000000000:91684487c34c3456eb4e901cef884a1e" =
      .ok (some "xello") :=
  ⟨rfl, rfl, rfl⟩

/-- C8: the encryption utility round-trips every nonempty string, including
Unicode, under a well-formed 32-byte key and 16-byte IV: encrypt produces a
stored string and decrypt recovers the original plaintext. The empty string
is the exception: encrypt returns null on it. Corrupting a hex character of
the ciphertext half so that the padding check breaks makes decrypt fail
with the decryption-failed error, but corrupting the IV half goes
undetected: decrypt succeeds and returns a different plaintext. -/
theorem encryption_roundTrip_spec (key iv : List ℕ) (s : String)
    (hk32 : key.length = 32) (hkb : ∀ b ∈ key, b < 256)
    (hiv : iv.length = 16) (hivb : ∀ b ∈ iv, b < 256) (hs : s ≠ "") :
    (∃ ct : String, encrypt key iv s = some ct ∧ decrypt key ct = .ok (some s)) ∧
    encrypt key iv "" = none ∧
    decrypt exKey "00000000000000000000000000000000:11684487c34c3456eb4e901cef884a1e" =
      .error "Decryption failed" ∧
    decrypt exKey "10000000000000000000000000000000:91684487c34c3456eb4e901cef884a1e" =
      .ok (some "xello") := by
  refine ⟨⟨String.mk (bytesToHex iv ++ ':' :: bytesToHex
      (concatBlocks (cbcEncryptBlocks (roundKeysOf key) iv
        (toBlocks (pkcs7pad (utf8Encode s.data)))))), ?_, ?_⟩, ?_, rfl, rfl⟩
  · rw [encrypt, if_neg hs]
  · rw [decrypt_of_encrypt_bytes key iv (utf8Encode s.data) hk32 hkb hiv hivb
      (utf8Encode_lt s.data), utf8Decode_utf8Encode]
  · rw [encrypt, if_pos rfl]

/-- C8 witness: the claim theorem at the byte 0..31 key, the all-zero IV
and the plaintext hello, every hypothesis checked by evaluation. -/
theorem encryption_roundTrip_spec_witness :
    (exKey.length = 32 ∧ (∀ b ∈ exKey, b < 256) ∧ exIV.length = 16 ∧
      (∀ b ∈ exIV, b < 256) ∧ "hello" ≠ "") ∧
    ((∃ ct : String, encrypt exKey exIV "hello" = some ct ∧
        decrypt exKey ct = .ok (some "hello")) ∧
      encrypt exKey exIV "" = none ∧
      decrypt exKey "00000000000000000000000000000000:11684487c34c3456eb4e901cef884a1e" =
        .error "Decryption failed" ∧
      decrypt exKey "10000000000000000000000000000000:91684487c34c3456eb4e901cef884a1e" =
        .ok (some "xello")) :=
  ⟨⟨by decide, by decide, by decide, by decide, by decide⟩,
    encryption_roundTrip_spec exKey exIV "hello" (by decide) (by decide) (by decide)
      (by decide) (by decide)⟩

end ArtisanMarket
